import Mathlib

/-!
Shallow embedding of the persistence core of the todo-list service: the
entity model (src/models), the in-memory repositories
(MemoryListRepository, MemoryTaskRepository) and the SQLite-backed
repositories (SQLListRepository, SQLTaskRepository in
src/src/repositories/sql/SQLListRepository.ts), plus the one service-layer
call path a claim depends on (ListService.deleteList).

Modelling conventions:

* Instants (JS `Date` values and their ISO-8601 TEXT images in the SQLite
  columns) are modelled as `Nat` milliseconds since the epoch.
  `Date.prototype.toISOString` is strictly monotone and ISO strings of the
  fixed format it emits compare lexicographically exactly like the
  instants they denote, so SQL comparisons on those TEXT columns are
  modelled as `Nat` comparisons.
* A JS `Map<string, T>` is modelled as a `List T` in insertion order:
  `Map.prototype.set` replaces the value of an existing key in place and
  appends unknown keys at the end; `Array.from(map.values())` enumerates
  in that order.
* A SQLite table is modelled as a `List` of rows in rowid (insertion)
  order.  A query with an `ORDER BY` clause is modelled relationally, by a
  predicate characterising the permitted outputs — a permutation of the
  selected rows that is pairwise consistent with the `ORDER BY` keys —
  because SQLite leaves the relative order of rows that compare equal
  under the `ORDER BY` keys unspecified.
* `Array.prototype.sort` (ES2019 and later: a stable sort driven by the
  comparator) is modelled as `List.insertionSort` of the relation
  `comparator a b ≤ 0`, which is the stable sort for a consistent
  comparator.
* The wall clock is passed explicitly: each operation receives the
  instant(s) its `new Date()` reads return as extra `Nat` arguments.
  Facts about the real clock — monotonicity, and the
  `setTimeout(resolve, 10)` delay inside the in-memory update/toggle
  operations finishing only after the clock advanced by at least 10 ms —
  become hypotheses of theorems or of the reachability relations.
* `uuidv4()` results are opaque `String` arguments; their freshness is a
  hypothesis where it matters.
-/

namespace Todo

/-- Priority enum from src/models/Task.ts (`TaskPriority`). -/
inductive TaskPriority
  | low
  | medium
  | high
deriving DecidableEq, Repr

/-- String value of each enum member, as stored in the `priority` column and
seen by string comparisons. -/
def TaskPriority.str : TaskPriority → String
  | .low => "low"
  | .medium => "medium"
  | .high => "high"

/-- Task entity (src/models/Task.ts `Task`).  `description = none` models a
`null`/absent description, `deadline = none` an absent deadline. -/
structure Task where
  id : String
  title : String
  description : Option String
  completed : Bool
  deadline : Option Nat
  priority : TaskPriority
  listId : String
  createdAt : Nat
  updatedAt : Nat
deriving DecidableEq, Repr

/-- List entity (src/models/List.ts `List`; renamed because `List` collides
with Lean's list type).  The derived `tasks` collection the repositories
attach on reads is recomputed from the task map/table on every read and never
stored authoritatively, so it is modelled at the call sites that need it
(`MemoryListRepository.listTasks`) rather than inside the entity. -/
structure TodoList where
  id : String
  name : String
  description : Option String
  createdAt : Nat
  updatedAt : Nat
deriving DecidableEq, Repr

/-- CreateListDto (src/models/List.ts). -/
structure CreateListDto where
  name : String
  description : Option String := none
deriving DecidableEq, Repr

/-- UpdateListDto (src/models/List.ts): partial patch; `none` means the field
is absent from the patch. -/
structure UpdateListDto where
  name : Option String := none
  description : Option String := none
deriving DecidableEq, Repr

/-- CreateTaskDto (src/models/Task.ts). -/
structure CreateTaskDto where
  title : String
  description : Option String := none
  deadline : Option Nat := none
  priority : Option TaskPriority := none
deriving DecidableEq, Repr

/-- UpdateTaskDto (src/models/Task.ts): partial patch. -/
structure UpdateTaskDto where
  title : Option String := none
  description : Option String := none
  completed : Option Bool := none
  deadline : Option Nat := none
  priority : Option TaskPriority := none
deriving DecidableEq, Repr

/-- The four legal values of `TaskQueryParams.sortBy`. -/
inductive SortField
  | deadline
  | createdAt
  | priority
  | title
deriving DecidableEq, Repr

/-- The two legal values of `TaskQueryParams.sortOrder` and of the `order`
argument of `findSortedByDeadline`. -/
inductive SortOrder
  | asc
  | desc
deriving DecidableEq, Repr

/-- TaskQueryParams (src/models/Task.ts): optional filters plus an optional
sort selector. -/
structure TaskQueryParams where
  completed : Option Bool := none
  priority : Option TaskPriority := none
  sortBy : Option SortField := none
  sortOrder : Option SortOrder := none
  listId : Option String := none
deriving DecidableEq, Repr

/-- The JS expression `s || null` applied to an optional string: the empty
string is falsy, so it also collapses to `null`. -/
def jsStrOrNull : Option String → Option String
  | some s => if s = "" then none else some s
  | none => none

/-- Lookup by key: the first element whose key is `id` (JS `Map.get`; SQL
`SELECT … WHERE id = ?` read with `db.get`). -/
def getBy (k : α → String) (s : List α) (id : String) : Option α :=
  s.find? (fun x => decide (k x = id))

/-- Pointwise transformation of every element whose key is `id` (the row set
an `UPDATE … WHERE id = ?` touches). -/
def patchBy (k : α → String) (s : List α) (id : String) (f : α → α) : List α :=
  s.map (fun x => if k x = id then f x else x)

/-- True when some element has key `id` (JS `Map.has`; SQL `changes > 0` of a
statement whose WHERE clause is `id = ?`). -/
def hasBy (k : α → String) (s : List α) (id : String) : Bool :=
  s.any (fun x => decide (k x = id))

/-- JS `Map.set`: replace in place when the key already exists, append
otherwise. -/
def setBy (k : α → String) (s : List α) (u : α) : List α :=
  if hasBy k s (k u) then patchBy k s (k u) (fun _ => u) else s ++ [u]

/-- Removal by key (JS `Map.delete`; SQL `DELETE … WHERE id = ?`). -/
def removeBy (k : α → String) (s : List α) (id : String) : List α :=
  s.filter (fun x => !decide (k x = id))

/-! ### MemoryTaskRepository (src/repositories/memory/MemoryTaskRepository.ts) -/

/-- State of a MemoryTaskRepository instance: its private
`tasks : Map<string, Task>`. -/
abbrev MemoryTaskRepository.State := List Task

/-- MemoryTaskRepository.create: builds the task —
`description: data.description || null` (an empty string is falsy),
`deadline: data.deadline || null` (a `Date` object is always truthy, so the
option passes through), `priority: data.priority || TaskPriority.MEDIUM`,
`completed: false` — reading the clock twice
(`createdAt: new Date(), updatedAt: new Date()`, instants `now₁` and `now₂`
in evaluation order), and stores it under its fresh uuid `id`. -/
def MemoryTaskRepository.create (s : State) (id lid : String) (d : CreateTaskDto)
    (now₁ now₂ : Nat) : Task × State :=
  let task : Task :=
    { id := id, title := d.title, description := jsStrOrNull d.description,
      completed := false, deadline := d.deadline,
      priority := d.priority.getD TaskPriority.medium,
      listId := lid, createdAt := now₁, updatedAt := now₂ }
  (task, setBy Task.id s task)

/-- MemoryTaskRepository.findById: `this.tasks.get(id) || null`. -/
def MemoryTaskRepository.findById (s : State) (id : String) : Option Task :=
  getBy Task.id s id

/-- The object spread `{ ...task, ...data, updatedAt: new Date() }` of
MemoryTaskRepository.update: fields present in the patch overwrite, the rest
are kept, and `updatedAt` is re-stamped last. -/
def UpdateTaskDto.spread (d : UpdateTaskDto) (t : Task) (now : Nat) : Task :=
  { t with
    title := d.title.getD t.title,
    description := match d.description with
      | some s => some s
      | none => t.description,
    completed := d.completed.getD t.completed,
    deadline := match d.deadline with
      | some v => some v
      | none => t.deadline,
    priority := d.priority.getD t.priority,
    updatedAt := now }

/-- MemoryTaskRepository.update: returns `null` and leaves the map untouched
when the id is unknown; otherwise awaits
`new Promise(resolve => setTimeout(resolve, 10))` and re-stamps.  `now` is the
instant of the `new Date()` read after that delay. -/
def MemoryTaskRepository.update (s : State) (id : String) (d : UpdateTaskDto)
    (now : Nat) : Option Task × State :=
  match getBy Task.id s id with
  | none => (none, s)
  | some t =>
    let u := d.spread t now
    (some u, setBy Task.id s u)

/-- MemoryTaskRepository.delete: `this.tasks.delete(id)` and its Boolean
result. -/
def MemoryTaskRepository.delete (s : State) (id : String) : Bool × State :=
  (hasBy Task.id s id, removeBy Task.id s id)

/-- MemoryTaskRepository.toggleComplete: like update, after the 10 ms delay,
but the patch is `completed: !task.completed`. -/
def MemoryTaskRepository.toggleComplete (s : State) (id : String) (now : Nat) :
    Option Task × State :=
  match getBy Task.id s id with
  | none => (none, s)
  | some t =>
    let u := { t with completed := !t.completed, updatedAt := now }
    (some u, setBy Task.id s u)

/-- MemoryTaskRepository.findDueInRange: keeps exactly the tasks with a
present deadline satisfying `deadline >= startDate && deadline <= endDate`. -/
def MemoryTaskRepository.findDueInRange (s : State) (startDate endDate : Nat) :
    List Task :=
  s.filter (fun t =>
    match t.deadline with
    | none => false
    | some d => decide (startDate ≤ d) && decide (d ≤ endDate))

/-- Comparator of MemoryTaskRepository.findSortedByDeadline, the value
returned for the pair `(a, b)`: missing deadlines compare equal to each other
and greater than every present deadline irrespective of `order`; two present
deadlines compare by `a.deadline.getTime() - b.deadline.getTime()`, negated
for 'desc'. -/
def deadlineCompare (ord : SortOrder) (a b : Task) : Int :=
  match a.deadline, b.deadline with
  | none, none => 0
  | none, some _ => 1
  | some _, none => -1
  | some da, some db =>
    match ord with
    | .asc => (da : Int) - (db : Int)
    | .desc => (db : Int) - (da : Int)

/-- Order relation realised by the stable JS sort under `deadlineCompare`. -/
def deadlineBefore (ord : SortOrder) (a b : Task) : Prop :=
  deadlineCompare ord a b ≤ 0

instance (ord : SortOrder) : DecidableRel (deadlineBefore ord) :=
  fun a b => inferInstanceAs (Decidable (deadlineCompare ord a b ≤ 0))

/-- MemoryTaskRepository.findSortedByDeadline: a stable sort of the map's
values under `deadlineCompare`. -/
def MemoryTaskRepository.findSortedByDeadline (s : State) (ord : SortOrder) :
    List Task :=
  List.insertionSort (deadlineBefore ord) s

instance (ord : SortOrder) : IsTotal Task (deadlineBefore ord) where
  total a b := by
    unfold deadlineBefore deadlineCompare
    cases ha : a.deadline <;> cases hb : b.deadline <;> cases ord <;> simp <;> omega

instance (ord : SortOrder) : IsTrans Task (deadlineBefore ord) where
  trans a b c := by
    unfold deadlineBefore deadlineCompare
    cases ha : a.deadline <;> cases hb : b.deadline <;> cases hc : c.deadline <;>
      cases ord <;> simp <;> omega

/-- Lexicographic order on character lists (the order of both JS string
comparison and SQLite's BINARY collation on ASCII data). -/
def charListLtb : List Char → List Char → Bool
  | [], [] => false
  | [], _ :: _ => true
  | _ :: _, [] => false
  | c :: cs, d :: ds => if c < d then true else if d < c then false else charListLtb cs ds

/-- Lexicographic strict order on strings via their character data. -/
def strLtb (x y : String) : Bool := charListLtb x.data y.data

/-- Sign of `a.localeCompare(b)`, modelled as lexicographic string comparison
(the two agree on ASCII data, which is all this system compares: the priority
strings and plain titles). -/
def localeCompareSign (x y : String) : Int :=
  if strLtb x y then -1 else if strLtb y x then 1 else 0

/-- Direction application `params.sortOrder === 'desc' ? -c : c`. -/
def applySortOrder (ord : Option SortOrder) (c : Int) : Int :=
  if ord = some SortOrder.desc then -c else c

/-- The dynamic comparator of MemoryTaskRepository.applyFiltersAndSorting
specialised to each sort field (both values are read from the same property):
`Date`s become `getTime()` numbers; a `null`/`undefined` value — only the
deadline can be one — sorts last regardless of direction; strings compare by
`localeCompare` and numbers by subtraction, with the direction negating only
that final comparison. -/
def fieldCompare (f : SortField) (ord : Option SortOrder) (a b : Task) : Int :=
  match f with
  | .deadline =>
    match a.deadline, b.deadline with
    | none, none => 0
    | none, some _ => 1
    | some _, none => -1
    | some da, some db => applySortOrder ord ((da : Int) - (db : Int))
  | .createdAt => applySortOrder ord ((a.createdAt : Int) - (b.createdAt : Int))
  | .priority => applySortOrder ord (localeCompareSign a.priority.str b.priority.str)
  | .title => applySortOrder ord (localeCompareSign a.title b.title)

/-- Order relation realised by the stable JS sort under `fieldCompare`. -/
def fieldBefore (f : SortField) (ord : Option SortOrder) (a b : Task) : Prop :=
  fieldCompare f ord a b ≤ 0

instance (f : SortField) (ord : Option SortOrder) : DecidableRel (fieldBefore f ord) :=
  fun a b => inferInstanceAs (Decidable (fieldCompare f ord a b ≤ 0))

/-- Filter conjunction of applyFiltersAndSorting; the WHERE clauses built by
SQLTaskRepository.buildQuery test the same three equalities. -/
def matchesFilters (p : TaskQueryParams) (t : Task) : Bool :=
  (match p.completed with
    | some c => decide (t.completed = c)
    | none => true) &&
  (match p.priority with
    | some pr => decide (t.priority = pr)
    | none => true) &&
  (match p.listId with
    | some l => decide (t.listId = l)
    | none => true)

/-- MemoryTaskRepository.applyFiltersAndSorting: without params the input is
returned as is; otherwise the three optional filters are applied, and when
`sortBy` is present the filtered array is stably sorted by `fieldCompare`. -/
def MemoryTaskRepository.applyFiltersAndSorting (tasks : List Task)
    (params : Option TaskQueryParams) : List Task :=
  match params with
  | none => tasks
  | some p =>
    let filtered := tasks.filter (matchesFilters p)
    match p.sortBy with
    | none => filtered
    | some f => List.insertionSort (fieldBefore f p.sortOrder) filtered

/-- MemoryTaskRepository.findAll: map values in insertion order, then
applyFiltersAndSorting. -/
def MemoryTaskRepository.findAll (s : State) (params : Option TaskQueryParams) :
    List Task :=
  applyFiltersAndSorting s params

/-- MemoryTaskRepository.findByListId. -/
def MemoryTaskRepository.findByListId (s : State) (lid : String)
    (params : Option TaskQueryParams) : List Task :=
  applyFiltersAndSorting (s.filter (fun t => decide (t.listId = lid))) params

/-! ### MemoryListRepository (src/repositories/memory/MemoryListRepository.ts) -/

/-- State of a MemoryListRepository instance: its `lists` map and its own
private `tasks` map.  That task map is distinct from any
MemoryTaskRepository's map: the only writers to it are this repository's
`delete` (which removes the owned tasks) and the test-only helper
`addTask`. -/
structure MemoryListRepository.State where
  lists : List TodoList
  tasks : List Task
deriving DecidableEq, Repr

/-- MemoryListRepository.create (`description: data.description || null`,
`createdAt: new Date(), updatedAt: new Date()`, instants in evaluation
order).  The stored `tasks: []` field is derived data and is recomputed on
every read, so it is not part of the modelled entity. -/
def MemoryListRepository.create (s : State) (id : String) (d : CreateListDto)
    (now₁ now₂ : Nat) : TodoList × State :=
  let l : TodoList :=
    { id := id, name := d.name, description := jsStrOrNull d.description,
      createdAt := now₁, updatedAt := now₂ }
  (l, { s with lists := setBy TodoList.id s.lists l })

/-- The derived tasks collection attached to a list on reads:
`Array.from(this.tasks.values()).filter(task => task.listId === id)`. -/
def MemoryListRepository.listTasks (s : State) (id : String) : List Task :=
  s.tasks.filter (fun t => decide (t.listId = id))

/-- MemoryListRepository.findAll returns the lists map's values in insertion
order (each with its derived tasks attached, which changes neither the order
nor any base field). -/
def MemoryListRepository.findAll (s : State) : List TodoList :=
  s.lists

/-- MemoryListRepository.findById (tasks attachment dropped as derived). -/
def MemoryListRepository.findById (s : State) (id : String) : Option TodoList :=
  getBy TodoList.id s.lists id

/-- Object spread `{ ...list, ...data, updatedAt: new Date(), tasks: … }` of
MemoryListRepository.update. -/
def UpdateListDto.spread (d : UpdateListDto) (l : TodoList) (now : Nat) : TodoList :=
  { l with
    name := d.name.getD l.name,
    description := match d.description with
      | some s => some s
      | none => l.description,
    updatedAt := now }

/-- MemoryListRepository.update: `null` and no state change for an unknown id;
otherwise the 10 ms delay, then the spread re-stamp (`now` is the post-delay
clock read). -/
def MemoryListRepository.update (s : State) (id : String) (d : UpdateListDto)
    (now : Nat) : Option TodoList × State :=
  match getBy TodoList.id s.lists id with
  | none => (none, s)
  | some l =>
    let u := d.spread l now
    (some u, { s with lists := setBy TodoList.id s.lists u })

/-- MemoryListRepository.delete: `this.lists.delete(id)` plus removal, from
this repository's own private tasks map, of every task whose `listId` is the
deleted id. -/
def MemoryListRepository.delete (s : State) (id : String) : Bool × State :=
  (hasBy TodoList.id s.lists id,
   { lists := removeBy TodoList.id s.lists id,
     tasks := s.tasks.filter (fun t => !decide (t.listId = id)) })

/-- MemoryListRepository.addTask, the test-only helper that copies a task into
the repository's private tasks map. -/
def MemoryListRepository.addTask (s : State) (t : Task) : State :=
  { s with tasks := setBy Task.id s.tasks t }

/-- The in-memory backend as wired by the RepositoryFactory: the service layer
receives one MemoryListRepository and one separate MemoryTaskRepository, each
owning its own private maps. -/
structure MemoryBackend where
  listRepo : MemoryListRepository.State
  taskRepo : MemoryTaskRepository.State
deriving DecidableEq, Repr

/-- ListService.deleteList (src/services/ListService.ts): after the
existence check via `listRepository.findById` it calls
`listRepository.delete(id)` and nothing else — the task repository is never
invoked on this path. -/
def ListService.deleteList (b : MemoryBackend) (id : String) : Bool × MemoryBackend :=
  match MemoryListRepository.findById b.listRepo id with
  | none => (false, b)
  | some _ =>
    let r := MemoryListRepository.delete b.listRepo id
    (r.1, { listRepo := r.2, taskRepo := b.taskRepo })

/-! ### SQL repositories (src/src/repositories/sql/SQLListRepository.ts)

Both SQL repositories read and write the same SQLite database. -/

/-- The SQLite database: tables `lists` and `tasks`, rows in rowid order. -/
structure SQLDatabase where
  lists : List TodoList
  tasks : List Task
deriving DecidableEq, Repr

/-- SQLTaskRepository.findById: `SELECT * FROM tasks WHERE id = ?` via
`db.get` (first matching row), mapped by mapRowToTask. -/
def SQLTaskRepository.findById (db : SQLDatabase) (id : String) : Option Task :=
  getBy Task.id db.tasks id

/-- SQLListRepository.findById. -/
def SQLListRepository.findById (db : SQLDatabase) (id : String) : Option TodoList :=
  getBy TodoList.id db.lists id

/-- SQLListRepository.create: a single `now = new Date().toISOString()` is
used for both timestamp columns; the row is inserted and read back.  `id` is
the fresh `uuidv4()`; primary-key uniqueness of the fresh uuid is what makes
the read-back return exactly the inserted row. -/
def SQLListRepository.create (db : SQLDatabase) (id : String) (d : CreateListDto)
    (now : Nat) : TodoList × SQLDatabase :=
  let row : TodoList :=
    { id := id, name := d.name, description := jsStrOrNull d.description,
      createdAt := now, updatedAt := now }
  (row, { db with lists := db.lists ++ [row] })

/-- SQLTaskRepository.create: one `now` for both timestamps,
`completed = false`, `deadline` bound to the ISO string or NULL,
`priority = data.priority || MEDIUM`, `description = data.description || null`;
insert then read back. -/
def SQLTaskRepository.create (db : SQLDatabase) (id lid : String)
    (d : CreateTaskDto) (now : Nat) : Task × SQLDatabase :=
  let row : Task :=
    { id := id, title := d.title, description := jsStrOrNull d.description,
      completed := false, deadline := d.deadline,
      priority := d.priority.getD TaskPriority.medium,
      listId := lid, createdAt := now, updatedAt := now }
  (row, { db with tasks := db.tasks ++ [row] })

/-- True when the UpdateListDto contributes no SET clause
(`updates.length === 0`). -/
def UpdateListDto.isEmpty (d : UpdateListDto) : Bool :=
  decide (d.name = none) && decide (d.description = none)

/-- Column assignments of SQLListRepository.update on one matched row: the
present patch fields plus `updated_at = now`. -/
def applyListPatch (d : UpdateListDto) (r : TodoList) (now : Nat) : TodoList :=
  { r with
    name := d.name.getD r.name,
    description := match d.description with
      | some s => some s
      | none => r.description,
    updatedAt := now }

/-- SQLListRepository.update: an empty patch only re-reads (no re-stamp!);
otherwise one `UPDATE lists SET … , updated_at = ? WHERE id = ?` runs with
`now = new Date().toISOString()` read at the call — there is no
minimum-increment delay here, unlike the in-memory twin — and the result is
the re-read when `changes > 0`, `null` otherwise. -/
def SQLListRepository.update (db : SQLDatabase) (id : String) (d : UpdateListDto)
    (now : Nat) : Option TodoList × SQLDatabase :=
  if d.isEmpty then (SQLListRepository.findById db id, db)
  else if hasBy TodoList.id db.lists id then
    let db' : SQLDatabase :=
      { db with lists := patchBy TodoList.id db.lists id (fun r => applyListPatch d r now) }
    (SQLListRepository.findById db' id, db')
  else (none, db)

/-- True when the UpdateTaskDto contributes no SET clause. -/
def UpdateTaskDto.isEmpty (d : UpdateTaskDto) : Bool :=
  decide (d.title = none) && decide (d.description = none) &&
  decide (d.completed = none) && decide (d.deadline = none) &&
  decide (d.priority = none)

/-- Column assignments of SQLTaskRepository.update on one matched row. -/
def applyTaskPatch (d : UpdateTaskDto) (r : Task) (now : Nat) : Task :=
  { r with
    title := d.title.getD r.title,
    description := match d.description with
      | some s => some s
      | none => r.description,
    completed := d.completed.getD r.completed,
    deadline := match d.deadline with
      | some v => some v
      | none => r.deadline,
    priority := d.priority.getD r.priority,
    updatedAt := now }

/-- SQLTaskRepository.update, mirroring SQLListRepository.update. -/
def SQLTaskRepository.update (db : SQLDatabase) (id : String) (d : UpdateTaskDto)
    (now : Nat) : Option Task × SQLDatabase :=
  if d.isEmpty then (SQLTaskRepository.findById db id, db)
  else if hasBy Task.id db.tasks id then
    let db' : SQLDatabase :=
      { db with tasks := patchBy Task.id db.tasks id (fun r => applyTaskPatch d r now) }
    (SQLTaskRepository.findById db' id, db')
  else (none, db)

/-- SQLTaskRepository.delete: `DELETE FROM tasks WHERE id = ?`. -/
def SQLTaskRepository.delete (db : SQLDatabase) (id : String) : Bool × SQLDatabase :=
  (hasBy Task.id db.tasks id, { db with tasks := removeBy Task.id db.tasks id })

/-- SQLTaskRepository.toggleComplete:
`UPDATE tasks SET completed = NOT completed, updated_at = ? WHERE id = ?`
(the completed column holds the integers 0/1 the driver binds for JS
booleans, so `NOT completed` is Boolean negation), then the re-read when
`changes > 0`. -/
def SQLTaskRepository.toggleComplete (db : SQLDatabase) (id : String) (now : Nat) :
    Option Task × SQLDatabase :=
  if hasBy Task.id db.tasks id then
    let toggled := patchBy Task.id db.tasks id
      (fun r => { r with completed := !r.completed, updatedAt := now })
    let db' : SQLDatabase := { db with tasks := toggled }
    (SQLTaskRepository.findById db' id, db')
  else (none, db)

/-- SQLListRepository.delete runs only `DELETE FROM lists WHERE id = ?`.  The
tasks table declares `FOREIGN KEY (list_id) REFERENCES lists(id) ON DELETE
CASCADE`, but SQLite keeps foreign-key enforcement — and with it the cascade —
disabled on a connection unless that connection issues
`PRAGMA foreign_keys = ON`, and nothing in the repository does
(src/config/database.ts opens the connection without running any pragma, and
no other code issues one).  The delete therefore removes the list row only
and leaves the tasks table untouched. -/
def SQLListRepository.delete (db : SQLDatabase) (id : String) : Bool × SQLDatabase :=
  (hasBy TodoList.id db.lists id, { db with lists := removeBy TodoList.id db.lists id })

/-! ### Relational specifications of the SQL queries with ORDER BY -/

/-- Ordering relation of `ORDER BY created_at DESC`
(SQLListRepository.findAll). -/
def createdDescOrd (a b : TodoList) : Prop :=
  b.createdAt ≤ a.createdAt

instance (a b : TodoList) : Decidable (createdDescOrd a b) :=
  inferInstanceAs (Decidable (b.createdAt ≤ a.createdAt))

/-- Permitted outputs of SQLListRepository.findAll
(`SELECT * FROM lists ORDER BY created_at DESC`): any permutation of the
table consistent with the single ORDER BY key; ties on `created_at` are in
unspecified relative order. -/
def SQLListRepository.findAllSpec (db : SQLDatabase) (out : List TodoList) : Prop :=
  db.lists.Perm out ∧ out.Pairwise createdDescOrd

/-- The expression `CASE WHEN deadline IS NULL THEN 1 ELSE 0 END`. -/
def deadlineNullFlag (t : Task) : Nat :=
  match t.deadline with
  | none => 1
  | some _ => 0

/-- Second ORDER BY key: the `deadline` column in the requested direction.
NULL deadlines compare equal to each other on this key; the mixed cases
cannot co-occur with an equal null flag. -/
def deadlineKeyOrd (ord : SortOrder) : Option Nat → Option Nat → Prop
  | none, none => True
  | some da, some db =>
    match ord with
    | .asc => da ≤ db
    | .desc => db ≤ da
  | _, _ => False

instance (ord : SortOrder) (x y : Option Nat) : Decidable (deadlineKeyOrd ord x y) := by
  unfold deadlineKeyOrd
  rcases x with _ | dx <;> rcases y with _ | dy <;> rcases ord <;> infer_instance

/-- Ordering of `ORDER BY CASE WHEN deadline IS NULL THEN 1 ELSE 0 END,
deadline ASC|DESC`: lexicographic on the null flag — always ascending, the
direction applies only to the second key — then the deadline key. -/
def sqlDeadlineOrd (ord : SortOrder) (a b : Task) : Prop :=
  deadlineNullFlag a < deadlineNullFlag b ∨
    (deadlineNullFlag a = deadlineNullFlag b ∧ deadlineKeyOrd ord a.deadline b.deadline)

instance (ord : SortOrder) (a b : Task) : Decidable (sqlDeadlineOrd ord a b) := by
  unfold sqlDeadlineOrd
  infer_instance

/-- Permitted outputs of SQLTaskRepository.findSortedByDeadline. -/
def SQLTaskRepository.findSortedByDeadlineSpec (db : SQLDatabase) (ord : SortOrder)
    (out : List Task) : Prop :=
  db.tasks.Perm out ∧ out.Pairwise (sqlDeadlineOrd ord)

/-- A string column in the requested direction under SQLite's BINARY
collation, which on ASCII data is the lexicographic order `strLtb`. -/
def sqlStrOrd (ord : SortOrder) (x y : String) : Prop :=
  match ord with
  | .asc => strLtb y x = false
  | .desc => strLtb x y = false

instance (ord : SortOrder) (x y : String) : Decidable (sqlStrOrd ord x y) := by
  unfold sqlStrOrd
  rcases ord <;> infer_instance

/-- A numeric/timestamp column in the requested direction. -/
def sqlNatOrd (ord : SortOrder) (x y : Nat) : Prop :=
  match ord with
  | .asc => x ≤ y
  | .desc => y ≤ x

instance (ord : SortOrder) (x y : Nat) : Decidable (sqlNatOrd ord x y) := by
  unfold sqlNatOrd
  rcases ord <;> infer_instance

/-- The ORDER BY key SQLTaskRepository.buildQuery emits for each sort field:
`deadline` gets the null-flag prefix, every other field orders by the raw
column in the requested direction.  No secondary tie-break key is ever
added. -/
def sqlFieldOrd (f : SortField) (ord : SortOrder) (a b : Task) : Prop :=
  match f with
  | .deadline => sqlDeadlineOrd ord a b
  | .createdAt => sqlNatOrd ord a.createdAt b.createdAt
  | .priority => sqlStrOrd ord a.priority.str b.priority.str
  | .title => sqlStrOrd ord a.title b.title

instance (f : SortField) (ord : SortOrder) (a b : Task) : Decidable (sqlFieldOrd f ord a b) := by
  unfold sqlFieldOrd
  rcases f <;> infer_instance

/-- Ordering requested by buildQuery: the sort field with
`params.sortOrder || 'asc'` when `sortBy` is present,
`ORDER BY created_at ASC` otherwise. -/
def sqlQueryOrd (params : Option TaskQueryParams) (a b : Task) : Prop :=
  match params with
  | none => a.createdAt ≤ b.createdAt
  | some p =>
    match p.sortBy with
    | none => a.createdAt ≤ b.createdAt
    | some f => sqlFieldOrd f (p.sortOrder.getD SortOrder.asc) a b

instance (params : Option TaskQueryParams) (a b : Task) : Decidable (sqlQueryOrd params a b) := by
  rcases params with _ | p
  · exact inferInstanceAs (Decidable (a.createdAt ≤ b.createdAt))
  · rcases hsb : p.sortBy with _ | f
    · refine decidable_of_iff (a.createdAt ≤ b.createdAt) ?_
      show a.createdAt ≤ b.createdAt ↔ (match p.sortBy with
        | none => a.createdAt ≤ b.createdAt
        | some f => sqlFieldOrd f (p.sortOrder.getD SortOrder.asc) a b)
      rw [hsb]
    · refine decidable_of_iff (sqlFieldOrd f (p.sortOrder.getD SortOrder.asc) a b) ?_
      show sqlFieldOrd f (p.sortOrder.getD SortOrder.asc) a b ↔ (match p.sortBy with
        | none => a.createdAt ≤ b.createdAt
        | some f => sqlFieldOrd f (p.sortOrder.getD SortOrder.asc) a b)
      rw [hsb]

/-- WHERE clauses of buildQuery (equality filters on completed, priority and
list_id, ANDed), the same three tests the in-memory filter applies. -/
def sqlQueryWhere (params : Option TaskQueryParams) (t : Task) : Bool :=
  match params with
  | none => true
  | some p => matchesFilters p t

/-- Permitted outputs of SQLTaskRepository.findAll. -/
def SQLTaskRepository.findAllSpec (db : SQLDatabase) (params : Option TaskQueryParams)
    (out : List Task) : Prop :=
  (db.tasks.filter (sqlQueryWhere params)).Perm out ∧ out.Pairwise (sqlQueryOrd params)

/-- Permitted outputs of SQLTaskRepository.findByListId (the `list_id = ?`
base condition plus buildQuery). -/
def SQLTaskRepository.findByListIdSpec (db : SQLDatabase) (lid : String)
    (params : Option TaskQueryParams) (out : List Task) : Prop :=
  ((db.tasks.filter (fun t => decide (t.listId = lid))).filter
      (sqlQueryWhere params)).Perm out ∧
    out.Pairwise (sqlQueryOrd params)

/-- Permitted outputs of SQLTaskRepository.findDueInRange
(`WHERE deadline IS NOT NULL AND deadline >= ? AND deadline <= ?
ORDER BY deadline ASC`). -/
def SQLTaskRepository.findDueInRangeSpec (db : SQLDatabase) (startDate endDate : Nat)
    (out : List Task) : Prop :=
  (db.tasks.filter (fun t =>
      match t.deadline with
      | none => false
      | some d => decide (startDate ≤ d) && decide (d ≤ endDate))).Perm out ∧
    out.Pairwise (fun a b => a.deadline.getD 0 ≤ b.deadline.getD 0)

/-! ### Reachable repository states

The repositories are driven only through their public operations.  The
constructors record, per operation, the facts the runtime guarantees about
the explicit clock arguments: real time is monotone (every `new Date()` read
returns at least the clock value after the preceding operation), the two
reads inside `create` happen in program order, the `setTimeout(resolve, 10)`
delay inside the in-memory update and toggleComplete completes only after
the clock advanced by at least 10 ms, and a fresh `uuidv4()` does not
collide with a stored id.  `c` is the clock value after the last
operation. -/

inductive MemTaskReach : MemoryTaskRepository.State → Nat → Prop
  | init (c : Nat) : MemTaskReach [] c
  | create (s : MemoryTaskRepository.State) (c : Nat) (id lid : String)
      (d : CreateTaskDto) (now₁ now₂ : Nat) :
      MemTaskReach s c → hasBy Task.id s id = false → c ≤ now₁ → now₁ ≤ now₂ →
      MemTaskReach (MemoryTaskRepository.create s id lid d now₁ now₂).2 now₂
  | update (s : MemoryTaskRepository.State) (c : Nat) (id : String)
      (d : UpdateTaskDto) (now : Nat) :
      MemTaskReach s c → c + 10 ≤ now →
      MemTaskReach (MemoryTaskRepository.update s id d now).2 now
  | toggle (s : MemoryTaskRepository.State) (c : Nat) (id : String) (now : Nat) :
      MemTaskReach s c → c + 10 ≤ now →
      MemTaskReach (MemoryTaskRepository.toggleComplete s id now).2 now
  | delete (s : MemoryTaskRepository.State) (c : Nat) (id : String) :
      MemTaskReach s c → MemTaskReach (MemoryTaskRepository.delete s id).2 c

/-- Reachable states of the shared SQL database, driven through the mutating
operations of both SQL repositories.  `c` bounds the wall clock after the
last operation; creates carry the freshness of the uuid primary key. -/
inductive SQLReach : SQLDatabase → Nat → Prop
  | init (c : Nat) : SQLReach ⟨[], []⟩ c
  | listCreate (db : SQLDatabase) (c : Nat) (id : String) (d : CreateListDto) (now : Nat) :
      SQLReach db c → hasBy TodoList.id db.lists id = false → c ≤ now →
      SQLReach (SQLListRepository.create db id d now).2 now
  | taskCreate (db : SQLDatabase) (c : Nat) (id lid : String) (d : CreateTaskDto) (now : Nat) :
      SQLReach db c → hasBy Task.id db.tasks id = false → c ≤ now →
      SQLReach (SQLTaskRepository.create db id lid d now).2 now
  | listUpdate (db : SQLDatabase) (c : Nat) (id : String) (d : UpdateListDto) (now : Nat) :
      SQLReach db c → c ≤ now →
      SQLReach (SQLListRepository.update db id d now).2 now
  | taskUpdate (db : SQLDatabase) (c : Nat) (id : String) (d : UpdateTaskDto) (now : Nat) :
      SQLReach db c → c ≤ now →
      SQLReach (SQLTaskRepository.update db id d now).2 now
  | taskToggle (db : SQLDatabase) (c : Nat) (id : String) (now : Nat) :
      SQLReach db c → c ≤ now →
      SQLReach (SQLTaskRepository.toggleComplete db id now).2 now
  | listDelete (db : SQLDatabase) (c : Nat) (id : String) :
      SQLReach db c → SQLReach (SQLListRepository.delete db id).2 c
  | taskDelete (db : SQLDatabase) (c : Nat) (id : String) :
      SQLReach db c → SQLReach (SQLTaskRepository.delete db id).2 c

/-- Reachable MemoryListRepository states.  The test-only helper `addTask` is
not part of the production operation surface and is excluded. -/
inductive MemListReach : MemoryListRepository.State → Nat → Prop
  | init (c : Nat) : MemListReach ⟨[], []⟩ c
  | create (s : MemoryListRepository.State) (c : Nat) (id : String)
      (d : CreateListDto) (now₁ now₂ : Nat) :
      MemListReach s c → hasBy TodoList.id s.lists id = false → c ≤ now₁ → now₁ ≤ now₂ →
      MemListReach (MemoryListRepository.create s id d now₁ now₂).2 now₂
  | update (s : MemoryListRepository.State) (c : Nat) (id : String)
      (d : UpdateListDto) (now : Nat) :
      MemListReach s c → c + 10 ≤ now →
      MemListReach (MemoryListRepository.update s id d now).2 now
  | delete (s : MemoryListRepository.State) (c : Nat) (id : String) :
      MemListReach s c → MemListReach (MemoryListRepository.delete s id).2 c

/-! ### Concrete scenario data used by witnesses and counterexamples -/

/-- Scenario: one list "Work" created at instant 100 and, under it, one task
"Ship" created at instant 200 through the Task Store. -/
def c1ListDto : CreateListDto := { name := "Work" }

/-- Create payload of the scenario task. -/
def c1TaskDto : CreateTaskDto := { title := "Ship" }

/-- In-memory backend state of the cascade scenario: the list lives in the
list repository, the task was created through the separate task repository. -/
def c1Backend : MemoryBackend :=
  { listRepo := (MemoryListRepository.create ⟨[], []⟩ "L1" c1ListDto 100 100).2,
    taskRepo := (MemoryTaskRepository.create [] "T1" "L1" c1TaskDto 200 200).2 }

/-- SQL backend state of the cascade scenario. -/
def c1Db : SQLDatabase :=
  (SQLTaskRepository.create
    (SQLListRepository.create ⟨[], []⟩ "L1" c1ListDto 100).2 "T1" "L1" c1TaskDto 200).2

/-- The stored task of the cascade scenario. -/
def c1Task : Task :=
  { id := "T1", title := "Ship", description := none, completed := false,
    deadline := none, priority := TaskPriority.medium, listId := "L1",
    createdAt := 200, updatedAt := 200 }

/-- SQL database holding one list whose stamps are the instant 1000. -/
def c2Db : SQLDatabase :=
  (SQLListRepository.create ⟨[], []⟩ "L1" { name := "Groceries" } 1000).2

/-- A non-empty list patch. -/
def c2Patch : UpdateListDto := { name := some "Chores" }

/-- In-memory task store holding one task stamped at instant 100. -/
def c2MemState : MemoryTaskRepository.State :=
  (MemoryTaskRepository.create [] "T1" "L1" { title := "x" } 100 100).2

/-- A non-empty task patch. -/
def c2TaskPatch : UpdateTaskDto := { title := some "y" }

/-- The task `c2MemState` holds. -/
def c2StoredTask : Task :=
  { id := "T1", title := "x", description := none, completed := false,
    deadline := none, priority := TaskPriority.medium, listId := "L1",
    createdAt := 100, updatedAt := 100 }

/-- The list row `c2Db` holds. -/
def c2StoredList : TodoList :=
  { id := "L1", name := "Groceries", description := none,
    createdAt := 1000, updatedAt := 1000 }

/-- In-memory list store holding one list stamped at instant 100. -/
def c2MemListState : MemoryListRepository.State :=
  (MemoryListRepository.create ⟨[], []⟩ "L1" { name := "G" } 100 100).2

/-- The list `c2MemListState` holds. -/
def c2StoredMemList : TodoList :=
  { id := "L1", name := "G", description := none, createdAt := 100, updatedAt := 100 }

/-- SQL database holding one task whose stamps are the instant 1000. -/
def c2SqlTaskDb : SQLDatabase :=
  (SQLTaskRepository.create ⟨[], []⟩ "T1" "L1" { title := "x" } 1000).2

/-- The task row `c2SqlTaskDb` holds. -/
def c2SqlStoredTask : Task :=
  { id := "T1", title := "x", description := none, completed := false,
    deadline := none, priority := TaskPriority.medium, listId := "L1",
    createdAt := 1000, updatedAt := 1000 }

/-- First-created list of the ordering scenario (instant 100). -/
def c3L1 : TodoList :=
  { id := "L1", name := "A", description := none, createdAt := 100, updatedAt := 100 }

/-- Second-created list of the ordering scenario (instant 200). -/
def c3L2 : TodoList :=
  { id := "L2", name := "B", description := none, createdAt := 200, updatedAt := 200 }

/-- SQL database after creating the two scenario lists in order. -/
def c3Db : SQLDatabase := { lists := [c3L1, c3L2], tasks := [] }

/-- In-memory list store after creating the two scenario lists in order. -/
def c3MemState : MemoryListRepository.State :=
  (MemoryListRepository.create
    (MemoryListRepository.create ⟨[], []⟩ "L1" { name := "A" } 100 100).2
    "L2" { name := "B" } 200 200).2

/-- A task with a present deadline. -/
def c4T1 : Task :=
  { id := "T1", title := "a", description := none, completed := false,
    deadline := some 50, priority := TaskPriority.medium, listId := "L1",
    createdAt := 10, updatedAt := 10 }

/-- A task with an absent deadline. -/
def c4T2 : Task :=
  { id := "T2", title := "b", description := none, completed := false,
    deadline := none, priority := TaskPriority.medium, listId := "L1",
    createdAt := 20, updatedAt := 20 }

/-- SQL database with the deadline-absent task stored first. -/
def c4Db : SQLDatabase := { lists := [], tasks := [c4T2, c4T1] }

/-- First-created of two tasks tying on priority (both high). -/
def c5T1 : Task :=
  { id := "T1", title := "a", description := none, completed := false,
    deadline := none, priority := TaskPriority.high, listId := "L1",
    createdAt := 100, updatedAt := 100 }

/-- Second-created of two tasks tying on priority. -/
def c5T2 : Task :=
  { id := "T2", title := "b", description := none, completed := false,
    deadline := none, priority := TaskPriority.high, listId := "L1",
    createdAt := 200, updatedAt := 200 }

/-- A query sorting by priority with no filters. -/
def c5Params : TaskQueryParams := { sortBy := some SortField.priority }

/-- SQL database holding the two tying tasks in creation order. -/
def c5Db : SQLDatabase := { lists := [], tasks := [c5T1, c5T2] }

/-- In-memory task store after creating two tasks (default medium priority,
hence tying under a priority sort) in order. -/
def c5MemState : MemoryTaskRepository.State :=
  (MemoryTaskRepository.create
    (MemoryTaskRepository.create [] "T1" "L1" { title := "a" } 100 100).2
    "T2" "L1" { title := "b" } 200 200).2

/-- A task with deadline inside the queried range. -/
def c8T : Task :=
  { id := "T1", title := "a", description := none, completed := false,
    deadline := some 5, priority := TaskPriority.medium, listId := "L1",
    createdAt := 1, updatedAt := 1 }

/-- A stored task used to exercise toggle/frame theorems. -/
def c7T : Task :=
  { id := "T1", title := "a", description := none, completed := false,
    deadline := some 7, priority := TaskPriority.low, listId := "L1",
    createdAt := 3, updatedAt := 3 }

/-- In-memory task store reachable by one create (instants 5 and 6). -/
def c9State : MemoryTaskRepository.State :=
  (MemoryTaskRepository.create [] "T1" "L1" { title := "x" } 5 6).2

/-- The task stored in `c9State`. -/
def c9Task : Task :=
  { id := "T1", title := "x", description := none, completed := false,
    deadline := none, priority := TaskPriority.medium, listId := "L1",
    createdAt := 5, updatedAt := 6 }

/-- In-memory list store reachable by one create (instants 7 and 8). -/
def c9ListState : MemoryListRepository.State :=
  (MemoryListRepository.create ⟨[], []⟩ "L1" { name := "n" } 7 8).2

/-- SQL database reachable by one task create at instant 5. -/
def c9SqlDb : SQLDatabase :=
  (SQLTaskRepository.create ⟨[], []⟩ "T1" "L1" { title := "x" } 5).2

/-- The row stored in `c9SqlDb`. -/
def c9SqlTask : Task :=
  { id := "T1", title := "x", description := none, completed := false,
    deadline := none, priority := TaskPriority.medium, listId := "L1",
    createdAt := 5, updatedAt := 5 }

/-- The list stored in `c9ListState`. -/
def c9ListEntity : TodoList :=
  { id := "L1", name := "n", description := none, createdAt := 7, updatedAt := 8 }

/-- First task stored in `c5MemState` (create defaults applied). -/
def c5MemA : Task :=
  { id := "T1", title := "a", description := none, completed := false,
    deadline := none, priority := TaskPriority.medium, listId := "L1",
    createdAt := 100, updatedAt := 100 }

/-- Second task stored in `c5MemState`. -/
def c5MemB : Task :=
  { id := "T2", title := "b", description := none, completed := false,
    deadline := none, priority := TaskPriority.medium, listId := "L1",
    createdAt := 200, updatedAt := 200 }

/-! ## Theorems

General facts about the keyed-list operations, then one theorem (plus
witness/counterexample where required) per specification claim. -/

theorem getBy_key {k : α → String} {s : List α} {id : String} {x : α}
    (h : getBy k s id = some x) : k x = id := by
  simpa using List.find?_some h

theorem getBy_mem {k : α → String} {s : List α} {id : String} {x : α}
    (h : getBy k s id = some x) : x ∈ s :=
  List.mem_of_find?_eq_some h

theorem hasBy_false_iff {k : α → String} {s : List α} {id : String} :
    hasBy k s id = false ↔ ∀ x ∈ s, k x ≠ id := by
  simp [hasBy]

theorem hasBy_of_getBy_some {k : α → String} {s : List α} {id : String} {x : α}
    (h : getBy k s id = some x) : hasBy k s id = true := by
  simp only [hasBy, List.any_eq_true]
  exact ⟨x, getBy_mem h, by simp [getBy_key h]⟩

theorem getBy_eq_none {k : α → String} {s : List α} {id : String}
    (h : hasBy k s id = false) : getBy k s id = none := by
  rw [getBy, List.find?_eq_none]
  intro x hx
  simpa using hasBy_false_iff.mp h x hx

theorem getBy_isSome_of_hasBy {k : α → String} {s : List α} {id : String}
    (h : hasBy k s id = true) : ∃ t, getBy k s id = some t := by
  cases hg : getBy k s id with
  | none =>
    rcases List.any_eq_true.mp h with ⟨x, hx, hpx⟩
    rw [getBy, List.find?_eq_none] at hg
    exact absurd hpx (by simpa using hg x hx)
  | some t => exact ⟨t, rfl⟩

theorem getBy_patchBy_self {k : α → String} {id : String} {f : α → α}
    (hf : ∀ y, k y = id → k (f y) = id) :
    ∀ {s : List α} {t : α}, getBy k s id = some t →
      getBy k (patchBy k s id f) id = some (f t) := by
  intro s
  induction s with
  | nil => intro t h; simp [getBy] at h
  | cons a as ih =>
    intro t h
    by_cases ha : k a = id
    · have ht : a = t := by
        rw [getBy, List.find?_cons_of_pos _ (by simpa using ha)] at h
        exact Option.some.inj h
      subst ht
      rw [patchBy, List.map_cons, if_pos ha, getBy,
        List.find?_cons_of_pos _ (by simpa using hf a ha)]
    · have h' : getBy k as id = some t := by
        rw [getBy, List.find?_cons_of_neg _ (by simpa using ha)] at h
        exact h
      rw [patchBy, List.map_cons, if_neg ha, getBy,
        List.find?_cons_of_neg _ (by simpa using ha)]
      exact ih h'

theorem mem_patchBy {k : α → String} {s : List α} {id : String} {f : α → α} {x : α}
    (h : x ∈ patchBy k s id f) : ∃ y ∈ s, x = if k y = id then f y else y := by
  rcases List.mem_map.mp h with ⟨y, hy, hxy⟩
  exact ⟨y, hy, hxy.symm⟩

theorem mem_patchBy_iff {k : α → String} {s : List α} {id : String} {f : α → α}
    (hf : ∀ y, k y = id → k (f y) = id) {x : α} (hx : k x ≠ id) :
    x ∈ patchBy k s id f ↔ x ∈ s := by
  constructor
  · intro h
    rcases mem_patchBy h with ⟨y, hy, hxy⟩
    by_cases hky : k y = id
    · rw [if_pos hky] at hxy
      exact absurd (hxy ▸ hf y hky) hx
    · rw [if_neg hky] at hxy
      exact hxy ▸ hy
  · intro h
    refine List.mem_map.mpr ⟨x, h, ?_⟩
    rw [if_neg hx]

theorem length_patchBy {k : α → String} {s : List α} {id : String} {f : α → α} :
    (patchBy k s id f).length = s.length := by
  simp [patchBy]

theorem setBy_eq_patchBy {k : α → String} {s : List α} {u : α}
    (h : hasBy k s (k u) = true) :
    setBy k s u = patchBy k s (k u) (fun _ => u) := by
  simp [setBy, h]

theorem setBy_eq_append {k : α → String} {s : List α} {u : α}
    (h : hasBy k s (k u) = false) : setBy k s u = s ++ [u] := by
  simp [setBy, h]

theorem mem_setBy {k : α → String} {s : List α} {u : α} {x : α}
    (h : x ∈ setBy k s u) : x ∈ s ∨ x = u := by
  by_cases hh : hasBy k s (k u) = true
  · rw [setBy_eq_patchBy hh] at h
    rcases mem_patchBy h with ⟨y, hy, hxy⟩
    by_cases hky : k y = k u
    · rw [if_pos hky] at hxy
      exact Or.inr hxy
    · rw [if_neg hky] at hxy
      exact Or.inl (hxy ▸ hy)
  · rw [setBy_eq_append (Bool.eq_false_iff.mpr hh)] at h
    rcases List.mem_append.mp h with h | h
    · exact Or.inl h
    · exact Or.inr (List.mem_singleton.mp h)

theorem elem_eq_of_pairwise_keys {k : α → String} {s : List α}
    (hp : s.Pairwise (fun a b => k a ≠ k b)) {x y : α}
    (hx : x ∈ s) (hy : y ∈ s) (hk : k x = k y) : x = y := by
  induction s with
  | nil => cases hx
  | cons a as ih =>
    rcases List.pairwise_cons.mp hp with ⟨ha, has⟩
    rcases List.mem_cons.mp hx with rfl | hx' <;>
      rcases List.mem_cons.mp hy with rfl | hy'
    · rfl
    · exact absurd hk (ha y hy')
    · exact absurd hk.symm (ha x hx')
    · exact ih has hx' hy'

/-- C1.  The claim states that after a successful List Store delete the Task
Store no longer finds the tasks of the deleted list, in both backends.  The
code violates it in both backends: in the in-memory backend
ListService.deleteList only invokes MemoryListRepository.delete, which
cascades over that repository's own private tasks map, while the production
tasks live in the separate MemoryTaskRepository, whose findById still returns
the task; in the SQL backend the delete issues only
`DELETE FROM lists WHERE id = ?` and the schema's ON DELETE CASCADE is never
enforced because no connection runs `PRAGMA foreign_keys = ON`.  This theorem
evaluates both backends at the failing scenario: the delete reports success,
yet the Task Store still finds the task. -/
theorem c1_cascade_delete_broken :
    (ListService.deleteList c1Backend "L1").1 = true ∧
    MemoryTaskRepository.findById (ListService.deleteList c1Backend "L1").2.taskRepo "T1" =
      some c1Task ∧
    (SQLListRepository.delete c1Db "L1").1 = true ∧
    SQLTaskRepository.findById (SQLListRepository.delete c1Db "L1").2 "T1" =
      some c1Task := by
  refine ⟨?_, ?_, ?_, ?_⟩ <;> rfl

/-- C6.  On every store, in both backends, an update whose id matches no
entity returns an absent result and leaves the state unchanged; no code path
on these branches throws.  (In the SQL backend, an empty patch re-reads and
finds nothing; a non-empty patch runs an UPDATE that matches zero rows and
then returns null.) -/
theorem c6_update_unknown_id_absent :
    (∀ (s : MemoryTaskRepository.State) (id : String) (d : UpdateTaskDto) (now : Nat),
      MemoryTaskRepository.findById s id = none →
      MemoryTaskRepository.update s id d now = (none, s)) ∧
    (∀ (s : MemoryListRepository.State) (id : String) (d : UpdateListDto) (now : Nat),
      MemoryListRepository.findById s id = none →
      MemoryListRepository.update s id d now = (none, s)) ∧
    (∀ (db : SQLDatabase) (id : String) (d : UpdateTaskDto) (now : Nat),
      SQLTaskRepository.findById db id = none →
      SQLTaskRepository.update db id d now = (none, db)) ∧
    (∀ (db : SQLDatabase) (id : String) (d : UpdateListDto) (now : Nat),
      SQLListRepository.findById db id = none →
      SQLListRepository.update db id d now = (none, db)) := by
  refine ⟨?_, ?_, ?_, ?_⟩
  · intro s id d now h
    rw [MemoryTaskRepository.findById] at h
    simp [MemoryTaskRepository.update, h]
  · intro s id d now h
    rw [MemoryListRepository.findById] at h
    simp [MemoryListRepository.update, h]
  · intro db id d now h
    rw [SQLTaskRepository.findById] at h
    have hhas : hasBy Task.id db.tasks id = false := by
      rcases Bool.eq_false_or_eq_true (hasBy Task.id db.tasks id) with ht | hf
      · rcases getBy_isSome_of_hasBy ht with ⟨t, hg⟩
        rw [h] at hg
        cases hg
      · exact hf
    unfold SQLTaskRepository.update
    split_ifs with h1 h2
    · rw [show SQLTaskRepository.findById db id = none from h]
    · exact absurd h2 (by simp [hhas])
    · rfl
  · intro db id d now h
    rw [SQLListRepository.findById] at h
    have hhas : hasBy TodoList.id db.lists id = false := by
      rcases Bool.eq_false_or_eq_true (hasBy TodoList.id db.lists id) with ht | hf
      · rcases getBy_isSome_of_hasBy ht with ⟨t, hg⟩
        rw [h] at hg
        cases hg
      · exact hf
    unfold SQLListRepository.update
    split_ifs with h1 h2
    · rw [show SQLListRepository.findById db id = none from h]
    · exact absurd h2 (by simp [hhas])
    · rfl

/-- Witness for C6 at the empty stores and a concrete unknown id. -/
theorem c6_update_unknown_id_absent_witness :
    MemoryTaskRepository.update [] "x" {} 0 = (none, []) ∧
    MemoryListRepository.update ⟨[], []⟩ "x" {} 0 = (none, ⟨[], []⟩) ∧
    SQLTaskRepository.update ⟨[], []⟩ "x" {} 0 = (none, ⟨[], []⟩) ∧
    SQLListRepository.update ⟨[], []⟩ "x" {} 0 = (none, ⟨[], []⟩) :=
  ⟨c6_update_unknown_id_absent.1 [] "x" {} 0 rfl,
   c6_update_unknown_id_absent.2.1 ⟨[], []⟩ "x" {} 0 rfl,
   c6_update_unknown_id_absent.2.2.1 ⟨[], []⟩ "x" {} 0 rfl,
   c6_update_unknown_id_absent.2.2.2 ⟨[], []⟩ "x" {} 0 rfl⟩

theorem memToggle_found {s : MemoryTaskRepository.State} {id : String} {t : Task}
    (now : Nat) (h : getBy Task.id s id = some t) :
    (MemoryTaskRepository.toggleComplete s id now).1 =
      some { t with completed := !t.completed, updatedAt := now } ∧
    (MemoryTaskRepository.toggleComplete s id now).2 =
      patchBy Task.id s id (fun _ => { t with completed := !t.completed, updatedAt := now }) := by
  have hkt : Task.id t = id := getBy_key h
  have hku : Task.id { t with completed := !t.completed, updatedAt := now } = id := hkt
  constructor
  · simp [MemoryTaskRepository.toggleComplete, h]
  · have hstate : (MemoryTaskRepository.toggleComplete s id now).2 =
        setBy Task.id s { t with completed := !t.completed, updatedAt := now } := by
      simp [MemoryTaskRepository.toggleComplete, h]
    rw [hstate]
    have hhas : hasBy Task.id s (Task.id { t with completed := !t.completed, updatedAt := now }) = true := by
      rw [hku]
      exact hasBy_of_getBy_some h
    rw [setBy_eq_patchBy hhas, hku]

theorem sqlToggle_found {db : SQLDatabase} {id : String} {t : Task}
    (now : Nat) (h : getBy Task.id db.tasks id = some t) :
    (SQLTaskRepository.toggleComplete db id now).1 =
      some { t with completed := !t.completed, updatedAt := now } ∧
    (SQLTaskRepository.toggleComplete db id now).2 =
      { db with tasks := patchBy Task.id db.tasks id (fun r => { r with completed := !r.completed, updatedAt := now }) } := by
  have hhas := hasBy_of_getBy_some h
  have hpatch : getBy Task.id (patchBy Task.id db.tasks id
      (fun r => { r with completed := !r.completed, updatedAt := now })) id =
      some { t with completed := !t.completed, updatedAt := now } := by
    refine getBy_patchBy_self ?_ h
    intro y hy
    exact hy
  constructor
  · simp only [SQLTaskRepository.toggleComplete, hhas, if_true]
    simpa [SQLTaskRepository.findById] using hpatch
  · simp [SQLTaskRepository.toggleComplete, hhas]

/-- C7.  In both backends, toggleComplete on an existing task flips the
completed flag (a toggle, not a set), and applying it twice returns the task
to its original completed value. -/
theorem c7_toggle_twice_roundtrip :
    (∀ (s : MemoryTaskRepository.State) (id : String) (now₁ now₂ : Nat) (t : Task),
      MemoryTaskRepository.findById s id = some t →
      ∃ u v, (MemoryTaskRepository.toggleComplete s id now₁).1 = some u ∧
        u.completed = !t.completed ∧
        (MemoryTaskRepository.toggleComplete
          (MemoryTaskRepository.toggleComplete s id now₁).2 id now₂).1 = some v ∧
        v.completed = t.completed) ∧
    (∀ (db : SQLDatabase) (id : String) (now₁ now₂ : Nat) (t : Task),
      SQLTaskRepository.findById db id = some t →
      ∃ u v, (SQLTaskRepository.toggleComplete db id now₁).1 = some u ∧
        u.completed = !t.completed ∧
        (SQLTaskRepository.toggleComplete
          (SQLTaskRepository.toggleComplete db id now₁).2 id now₂).1 = some v ∧
        v.completed = t.completed) := by
  constructor
  · intro s id now₁ now₂ t h
    rw [MemoryTaskRepository.findById] at h
    rcases memToggle_found now₁ h with ⟨h1, hs1⟩
    have hget1 : getBy Task.id (MemoryTaskRepository.toggleComplete s id now₁).2 id =
        some { t with completed := !t.completed, updatedAt := now₁ } := by
      rw [hs1]
      refine getBy_patchBy_self ?_ h
      intro y hy
      have hk := getBy_key h
      exact hk
    rcases memToggle_found now₂ hget1 with ⟨h2, _⟩
    refine ⟨_, _, h1, rfl, h2, ?_⟩
    simp
  · intro db id now₁ now₂ t h
    rw [SQLTaskRepository.findById] at h
    rcases sqlToggle_found now₁ h with ⟨h1, hs1⟩
    have hget1 : getBy Task.id (SQLTaskRepository.toggleComplete db id now₁).2.tasks id =
        some { t with completed := !t.completed, updatedAt := now₁ } := by
      rw [hs1]
      refine getBy_patchBy_self ?_ h
      intro y hy
      exact hy
    rcases sqlToggle_found now₂ hget1 with ⟨h2, _⟩
    refine ⟨_, _, h1, rfl, h2, ?_⟩
    simp

/-- Witness for C7: one stored task, toggled at instants 20 and then 30, in
each backend. -/
theorem c7_toggle_twice_roundtrip_witness :
    (∃ u v, (MemoryTaskRepository.toggleComplete [c7T] "T1" 20).1 = some u ∧
      u.completed = !c7T.completed ∧
      (MemoryTaskRepository.toggleComplete
        (MemoryTaskRepository.toggleComplete [c7T] "T1" 20).2 "T1" 30).1 = some v ∧
      v.completed = c7T.completed) ∧
    (∃ u v, (SQLTaskRepository.toggleComplete ⟨[], [c7T]⟩ "T1" 20).1 = some u ∧
      u.completed = !c7T.completed ∧
      (SQLTaskRepository.toggleComplete
        (SQLTaskRepository.toggleComplete ⟨[], [c7T]⟩ "T1" 20).2 "T1" 30).1 = some v ∧
      v.completed = c7T.completed) :=
  ⟨c7_toggle_twice_roundtrip.1 [c7T] "T1" 20 30 c7T rfl,
   c7_toggle_twice_roundtrip.2 ⟨[], [c7T]⟩ "T1" 20 30 c7T rfl⟩

/-- C10.  In both backends, toggleComplete on an existing task changes only
that task's completed flag and updatedAt — id, title, description, deadline,
priority, listId and createdAt are returned unchanged — the store keeps the
same number of tasks, membership of every task with a different id is
untouched, and (SQL) the lists table is untouched. -/
theorem c10_toggle_frame :
    (∀ (s : MemoryTaskRepository.State) (id : String) (now : Nat) (t : Task),
      MemoryTaskRepository.findById s id = some t →
      ∃ u, (MemoryTaskRepository.toggleComplete s id now).1 = some u ∧
        u.id = t.id ∧ u.title = t.title ∧ u.description = t.description ∧
        u.deadline = t.deadline ∧ u.priority = t.priority ∧ u.listId = t.listId ∧
        u.createdAt = t.createdAt ∧ u.completed = !t.completed ∧ u.updatedAt = now ∧
        (MemoryTaskRepository.toggleComplete s id now).2.length = s.length ∧
        (∀ x : Task, x.id ≠ id →
          (x ∈ (MemoryTaskRepository.toggleComplete s id now).2 ↔ x ∈ s))) ∧
    (∀ (db : SQLDatabase) (id : String) (now : Nat) (t : Task),
      SQLTaskRepository.findById db id = some t →
      ∃ u, (SQLTaskRepository.toggleComplete db id now).1 = some u ∧
        u.id = t.id ∧ u.title = t.title ∧ u.description = t.description ∧
        u.deadline = t.deadline ∧ u.priority = t.priority ∧ u.listId = t.listId ∧
        u.createdAt = t.createdAt ∧ u.completed = !t.completed ∧ u.updatedAt = now ∧
        (SQLTaskRepository.toggleComplete db id now).2.tasks.length = db.tasks.length ∧
        (SQLTaskRepository.toggleComplete db id now).2.lists = db.lists ∧
        (∀ x : Task, x.id ≠ id →
          (x ∈ (SQLTaskRepository.toggleComplete db id now).2.tasks ↔ x ∈ db.tasks))) := by
  constructor
  · intro s id now t h
    rw [MemoryTaskRepository.findById] at h
    rcases memToggle_found now h with ⟨h1, hs1⟩
    refine ⟨_, h1, rfl, rfl, rfl, rfl, rfl, rfl, rfl, rfl, rfl, ?_, ?_⟩
    · rw [hs1, length_patchBy]
    · intro x hx
      rw [hs1]
      refine mem_patchBy_iff ?_ hx
      intro y hy
      have hk := getBy_key h
      exact hk
  · intro db id now t h
    rw [SQLTaskRepository.findById] at h
    rcases sqlToggle_found now h with ⟨h1, hs1⟩
    refine ⟨_, h1, rfl, rfl, rfl, rfl, rfl, rfl, rfl, rfl, rfl, ?_, ?_, ?_⟩
    · rw [hs1, length_patchBy]
    · rw [hs1]
    · intro x hx
      rw [hs1]
      refine mem_patchBy_iff ?_ hx
      intro y hy
      exact hy

/-- Witness for C10 at a one-task store in each backend. -/
theorem c10_toggle_frame_witness :
    (∃ u, (MemoryTaskRepository.toggleComplete [c7T] "T1" 40).1 = some u ∧
      u.id = c7T.id ∧ u.title = c7T.title ∧ u.description = c7T.description ∧
      u.deadline = c7T.deadline ∧ u.priority = c7T.priority ∧ u.listId = c7T.listId ∧
      u.createdAt = c7T.createdAt ∧ u.completed = !c7T.completed ∧ u.updatedAt = 40 ∧
      (MemoryTaskRepository.toggleComplete [c7T] "T1" 40).2.length = [c7T].length ∧
      (∀ x : Task, x.id ≠ "T1" →
        (x ∈ (MemoryTaskRepository.toggleComplete [c7T] "T1" 40).2 ↔ x ∈ [c7T]))) ∧
    (∃ u, (SQLTaskRepository.toggleComplete ⟨[], [c7T]⟩ "T1" 40).1 = some u ∧
      u.id = c7T.id ∧ u.title = c7T.title ∧ u.description = c7T.description ∧
      u.deadline = c7T.deadline ∧ u.priority = c7T.priority ∧ u.listId = c7T.listId ∧
      u.createdAt = c7T.createdAt ∧ u.completed = !c7T.completed ∧ u.updatedAt = 40 ∧
      (SQLTaskRepository.toggleComplete ⟨[], [c7T]⟩ "T1" 40).2.tasks.length = [c7T].length ∧
      (SQLTaskRepository.toggleComplete ⟨[], [c7T]⟩ "T1" 40).2.lists = [] ∧
      (∀ x : Task, x.id ≠ "T1" →
        (x ∈ (SQLTaskRepository.toggleComplete ⟨[], [c7T]⟩ "T1" 40).2.tasks ↔ x ∈ [c7T]))) :=
  ⟨c10_toggle_frame.1 [c7T] "T1" 40 c7T rfl, c10_toggle_frame.2 ⟨[], [c7T]⟩ "T1" 40 c7T rfl⟩

/-- C8.  In both backends, findDueInRange returns exactly the tasks whose
deadline is present and lies inside the inclusive range; a task with an
absent deadline is never returned. -/
theorem c8_due_in_range_inclusive :
    (∀ (s : MemoryTaskRepository.State) (lo hi : Nat) (t : Task),
      t ∈ MemoryTaskRepository.findDueInRange s lo hi ↔
        t ∈ s ∧ ∃ d, t.deadline = some d ∧ lo ≤ d ∧ d ≤ hi) ∧
    (∀ (db : SQLDatabase) (lo hi : Nat) (out : List Task) (t : Task),
      SQLTaskRepository.findDueInRangeSpec db lo hi out →
      (t ∈ out ↔ t ∈ db.tasks ∧ ∃ d, t.deadline = some d ∧ lo ≤ d ∧ d ≤ hi)) := by
  have key : ∀ (t : Task) (lo hi : Nat),
      ((match t.deadline with
        | none => false
        | some d => decide (lo ≤ d) && decide (d ≤ hi)) = true) ↔
        ∃ d, t.deadline = some d ∧ lo ≤ d ∧ d ≤ hi := by
    intro t lo hi
    cases ht : t.deadline with
    | none => simp
    | some d => simp
  constructor
  · intro s lo hi t
    rw [MemoryTaskRepository.findDueInRange, List.mem_filter, key]
  · intro db lo hi out t hspec
    rw [← hspec.1.mem_iff, List.mem_filter, key]

/-- Witness for C8: a task with deadline 5 queried over the range 0–10, in
each backend (the SQL output is the singleton, which satisfies the query
specification). -/
theorem c8_due_in_range_inclusive_witness :
    (c8T ∈ MemoryTaskRepository.findDueInRange [c8T] 0 10 ↔
      c8T ∈ [c8T] ∧ ∃ d, c8T.deadline = some d ∧ 0 ≤ d ∧ d ≤ 10) ∧
    (c8T ∈ ([c8T] : List Task) ↔
      c8T ∈ (SQLDatabase.mk [] [c8T]).tasks ∧ ∃ d, c8T.deadline = some d ∧ 0 ≤ d ∧ d ≤ 10) :=
  ⟨c8_due_in_range_inclusive.1 [c8T] 0 10 c8T,
   c8_due_in_range_inclusive.2 ⟨[], [c8T]⟩ 0 10 [c8T] c8T (by constructor <;> decide)⟩

/-- C2 counterexample.  The claim says a successful update re-stamps
updatedAt strictly later than the prior value in both backends even inside
one clock tick.  In the SQL backend update writes `new Date().toISOString()`
with no minimum-increment mechanism: updating the list stored with
`updatedAt = 1000` during the same tick (the clock still reads 1000)
succeeds and returns `updatedAt = 1000`, not a strictly later value. -/
theorem c2_sql_same_tick_counterexample :
    (SQLListRepository.findById c2Db "L1").map TodoList.updatedAt = some 1000 ∧
    (SQLListRepository.update c2Db "L1" c2Patch 1000).1.map TodoList.updatedAt = some 1000 ∧
    (SQLListRepository.update c2Db "L1" c2Patch 1000).1.any
      (fun l => decide (1000 < l.updatedAt)) = false := by
  refine ⟨rfl, rfl, rfl⟩

/-- C2 as amended.  In the in-memory backend (cited:
MemoryTaskRepository.update) the enforced 10 ms delay makes the re-stamp
strictly later than the prior updatedAt (the call starts no earlier than the
prior stamp, and the post-delay clock read is at least 10 ms later).  In the
SQL backend (cited: SQLListRepository.update) the re-stamp is only the
current wall clock, which under a monotone clock is at least — but not
necessarily strictly greater than — the prior updatedAt. -/
theorem c2_update_restamp_amended :
    (∀ (s : MemoryTaskRepository.State) (id : String) (d : UpdateTaskDto)
        (now : Nat) (t : Task),
      MemoryTaskRepository.findById s id = some t → t.updatedAt + 10 ≤ now →
      ∃ u, (MemoryTaskRepository.update s id d now).1 = some u ∧
        t.updatedAt < u.updatedAt) ∧
    (∀ (s : MemoryListRepository.State) (id : String) (d : UpdateListDto)
        (now : Nat) (l : TodoList),
      MemoryListRepository.findById s id = some l → l.updatedAt + 10 ≤ now →
      ∃ u, (MemoryListRepository.update s id d now).1 = some u ∧
        l.updatedAt < u.updatedAt) ∧
    (∀ (db : SQLDatabase) (id : String) (d : UpdateListDto) (now : Nat) (t : TodoList),
      SQLListRepository.findById db id = some t → t.updatedAt ≤ now →
      ∃ u, (SQLListRepository.update db id d now).1 = some u ∧
        t.updatedAt ≤ u.updatedAt) ∧
    (∀ (db : SQLDatabase) (id : String) (d : UpdateTaskDto) (now : Nat) (t : Task),
      SQLTaskRepository.findById db id = some t → t.updatedAt ≤ now →
      ∃ u, (SQLTaskRepository.update db id d now).1 = some u ∧
        t.updatedAt ≤ u.updatedAt) := by
  refine ⟨?_, ?_, ?_, ?_⟩
  · intro s id d now t h h10
    rw [MemoryTaskRepository.findById] at h
    refine ⟨d.spread t now, ?_, ?_⟩
    · simp [MemoryTaskRepository.update, h]
    · show t.updatedAt < now
      omega
  · intro s id d now l h h10
    rw [MemoryListRepository.findById] at h
    refine ⟨d.spread l now, ?_, ?_⟩
    · simp [MemoryListRepository.update, h]
    · show l.updatedAt < now
      omega
  · intro db id d now t h hle
    rw [SQLListRepository.findById] at h
    have hhas := hasBy_of_getBy_some h
    cases he : d.isEmpty with
    | true =>
      refine ⟨t, ?_, le_refl _⟩
      simp [SQLListRepository.update, he, SQLListRepository.findById, h]
    | false =>
      have hget : getBy TodoList.id (patchBy TodoList.id db.lists id
          (fun r => applyListPatch d r now)) id = some (applyListPatch d t now) := by
        refine getBy_patchBy_self ?_ h
        intro y hy
        exact hy
      refine ⟨applyListPatch d t now, ?_, hle⟩
      simp only [SQLListRepository.update, he, Bool.false_eq_true, if_false, hhas, if_true]
      exact hget
  · intro db id d now t h hle
    rw [SQLTaskRepository.findById] at h
    have hhas := hasBy_of_getBy_some h
    cases he : d.isEmpty with
    | true =>
      refine ⟨t, ?_, le_refl _⟩
      simp [SQLTaskRepository.update, he, SQLTaskRepository.findById, h]
    | false =>
      have hget : getBy Task.id (patchBy Task.id db.tasks id
          (fun r => applyTaskPatch d r now)) id = some (applyTaskPatch d t now) := by
        refine getBy_patchBy_self ?_ h
        intro y hy
        exact hy
      refine ⟨applyTaskPatch d t now, ?_, hle⟩
      simp only [SQLTaskRepository.update, he, Bool.false_eq_true, if_false, hhas, if_true]
      exact hget

/-- Witness for C2 as amended: the in-memory store updated 10 ms after the
stored stamp 100 yields a strictly greater value; the SQL list updated at
instant 1200 (after the stored stamp 1000) yields a value at least 1000. -/
theorem c2_update_restamp_amended_witness :
    (∃ u, (MemoryTaskRepository.update c2MemState "T1" c2TaskPatch 110).1 = some u ∧
      c2StoredTask.updatedAt < u.updatedAt) ∧
    (∃ u, (MemoryListRepository.update c2MemListState "L1" c2Patch 115).1 = some u ∧
      c2StoredMemList.updatedAt < u.updatedAt) ∧
    (∃ u, (SQLListRepository.update c2Db "L1" c2Patch 1200).1 = some u ∧
      c2StoredList.updatedAt ≤ u.updatedAt) ∧
    (∃ u, (SQLTaskRepository.update c2SqlTaskDb "T1" c2TaskPatch 1300).1 = some u ∧
      c2SqlStoredTask.updatedAt ≤ u.updatedAt) :=
  ⟨c2_update_restamp_amended.1 c2MemState "T1" c2TaskPatch 110 c2StoredTask rfl (by decide),
   c2_update_restamp_amended.2.1 c2MemListState "L1" c2Patch 115 c2StoredMemList rfl (by decide),
   c2_update_restamp_amended.2.2.1 c2Db "L1" c2Patch 1200 c2StoredList rfl (by decide),
   c2_update_restamp_amended.2.2.2 c2SqlTaskDb "T1" c2TaskPatch 1300 c2SqlStoredTask rfl (by decide)⟩

/-- C4.  The null-last policy of findSortedByDeadline holds in both backends
and in both directions: the output is a rearrangement of the stored tasks in
which no deadline-absent task ever precedes a deadline-present one —
reversing the direction cannot move deadline-absent tasks to the front. -/
theorem c4_sorted_by_deadline_nulls_last :
    (∀ (s : MemoryTaskRepository.State) (ord : SortOrder),
      (MemoryTaskRepository.findSortedByDeadline s ord).Perm s ∧
      (MemoryTaskRepository.findSortedByDeadline s ord).Pairwise
        (fun a b => a.deadline = none → b.deadline = none)) ∧
    (∀ (db : SQLDatabase) (ord : SortOrder) (out : List Task),
      SQLTaskRepository.findSortedByDeadlineSpec db ord out →
      out.Pairwise (fun a b => a.deadline = none → b.deadline = none)) := by
  constructor
  · intro s ord
    constructor
    · exact List.perm_insertionSort _ s
    · have hs : List.Pairwise (deadlineBefore ord)
          (MemoryTaskRepository.findSortedByDeadline s ord) :=
        List.sorted_insertionSort (deadlineBefore ord) s
      refine List.Pairwise.imp ?_ hs
      intro a b hab hna
      cases hb : b.deadline with
      | none => rfl
      | some d =>
        rw [deadlineBefore] at hab
        rw [deadlineCompare, hna, hb] at hab
        cases ord <;> simp at hab
  · intro db ord out hspec
    refine List.Pairwise.imp ?_ hspec.2
    intro a b hab hna
    cases hb : b.deadline with
    | none => rfl
    | some d =>
      rcases hab with h1 | ⟨h2, _⟩
      · rw [deadlineNullFlag, deadlineNullFlag] at h1
        rw [hna, hb] at h1
        simp at h1
      · rw [deadlineNullFlag, deadlineNullFlag] at h2
        rw [hna, hb] at h2
        simp at h2

/-- Witness for C4: a deadline-absent task stored before a deadline-present
one; the memory sort is evaluated under 'desc', and the SQL specification is
instantiated with the null-last output under 'asc'. -/
theorem c4_sorted_by_deadline_nulls_last_witness :
    ((MemoryTaskRepository.findSortedByDeadline [c4T2, c4T1] SortOrder.desc).Perm
        [c4T2, c4T1] ∧
      (MemoryTaskRepository.findSortedByDeadline [c4T2, c4T1] SortOrder.desc).Pairwise
        (fun a b => a.deadline = none → b.deadline = none)) ∧
    ([c4T1, c4T2].Pairwise (fun a b => a.deadline = none → b.deadline = none)) :=
  ⟨c4_sorted_by_deadline_nulls_last.1 [c4T2, c4T1] SortOrder.desc,
   c4_sorted_by_deadline_nulls_last.2 c4Db SortOrder.asc [c4T1, c4T2]
     ⟨by decide, by decide⟩⟩

/-- Preservation of the stamp/order/key invariants when an entity found under
`id` is replaced in place by `u` (the shared shape of the in-memory update
and toggle operations).  `mC`/`mU` project the creation and update stamps. -/
theorem wf_patch_step {α} {k : α → String} {mC mU : α → Nat} {s : List α} {c now : Nat}
    {id : String} {t : α} (u : α)
    (hget : getBy k s id = some t) (huid : k u = id) (hucr : mC u = mC t)
    (huup : mU u = now) (hc : c ≤ now)
    (ihs : ∀ x ∈ s, mC x ≤ mU x ∧ mU x ≤ c)
    (ihsort : s.Pairwise fun a b => mC a ≤ mC b)
    (ihids : s.Pairwise fun a b => k a ≠ k b) :
    (∀ x ∈ patchBy k s id (fun _ => u), mC x ≤ mU x ∧ mU x ≤ now) ∧
    (patchBy k s id (fun _ => u)).Pairwise (fun a b => mC a ≤ mC b) ∧
    (patchBy k s id (fun _ => u)).Pairwise (fun a b => k a ≠ k b) := by
  have hmem := getBy_mem hget
  have hkt := getBy_key hget
  have hpt : ∀ y ∈ s, k y = id → y = t := fun y hy hyid =>
    elem_eq_of_pairwise_keys ihids hy hmem (by rw [hyid, hkt])
  refine ⟨?_, ?_, ?_⟩
  · intro x hx
    rcases mem_patchBy hx with ⟨y, hy, hxy⟩
    by_cases hyid : k y = id
    · rw [if_pos hyid] at hxy
      rw [hxy, huup, hucr]
      rcases ihs t hmem with ⟨hcu, huc⟩
      exact ⟨by omega, le_refl _⟩
    · rw [if_neg hyid] at hxy
      rw [hxy]
      rcases ihs y hy with ⟨hcu, huc⟩
      exact ⟨hcu, by omega⟩
  · rw [patchBy, List.pairwise_map]
    refine List.Pairwise.imp_of_mem ?_ ihsort
    intro a b ha hb hab
    have hfa : mC (if k a = id then u else a) = mC a := by
      by_cases haid : k a = id
      · rw [if_pos haid, hucr, hpt a ha haid]
      · rw [if_neg haid]
    have hfb : mC (if k b = id then u else b) = mC b := by
      by_cases hbid : k b = id
      · rw [if_pos hbid, hucr, hpt b hb hbid]
      · rw [if_neg hbid]
    rw [hfa, hfb]
    exact hab
  · rw [patchBy, List.pairwise_map]
    refine List.Pairwise.imp_of_mem ?_ ihids
    intro a b ha hb hab
    have hfa : k (if k a = id then u else a) = k a := by
      by_cases haid : k a = id
      · rw [if_pos haid, huid, haid]
      · rw [if_neg haid]
    have hfb : k (if k b = id then u else b) = k b := by
      by_cases hbid : k b = id
      · rw [if_pos hbid, huid, hbid]
      · rw [if_neg hbid]
    rw [hfa, hfb]
    exact hab

/-- Preservation of the stamp/order/key invariants when a freshly-keyed
entity is appended (the shared shape of both create operations). -/
theorem wf_append_step {α} {k : α → String} {mC mU : α → Nat} {s : List α}
    {c now₁ now₂ : Nat} {id : String} (u : α)
    (hfresh : hasBy k s id = false) (huid : k u = id) (hucr : mC u = now₁)
    (huup : mU u = now₂) (h1 : c ≤ now₁) (h2 : now₁ ≤ now₂)
    (ihs : ∀ x ∈ s, mC x ≤ mU x ∧ mU x ≤ c)
    (ihsort : s.Pairwise fun a b => mC a ≤ mC b)
    (ihids : s.Pairwise fun a b => k a ≠ k b) :
    (∀ x ∈ s ++ [u], mC x ≤ mU x ∧ mU x ≤ now₂) ∧
    (s ++ [u]).Pairwise (fun a b => mC a ≤ mC b) ∧
    (s ++ [u]).Pairwise (fun a b => k a ≠ k b) := by
  refine ⟨?_, ?_, ?_⟩
  · intro x hx
    rcases List.mem_append.mp hx with hx | hx
    · rcases ihs x hx with ⟨hcu, huc⟩
      exact ⟨hcu, by omega⟩
    · rw [List.mem_singleton.mp hx, hucr, huup]
      exact ⟨h2, le_refl _⟩
  · rw [List.pairwise_append]
    refine ⟨ihsort, List.pairwise_singleton _ _, ?_⟩
    intro a ha b hb
    rw [List.mem_singleton.mp hb, hucr]
    rcases ihs a ha with ⟨hcu, huc⟩
    omega
  · rw [List.pairwise_append]
    refine ⟨ihids, List.pairwise_singleton _ _, ?_⟩
    intro a ha b hb
    rw [List.mem_singleton.mp hb, huid]
    exact hasBy_false_iff.mp hfresh a ha

/-- Every reachable in-memory task store satisfies: stamps obey
`createdAt ≤ updatedAt ≤ clock`, the map's insertion order is ascending
creation order, and stored ids are pairwise distinct. -/
theorem memTaskReach_wf {s : MemoryTaskRepository.State} {c : Nat}
    (h : MemTaskReach s c) :
    (∀ t ∈ s, t.createdAt ≤ t.updatedAt ∧ t.updatedAt ≤ c) ∧
    s.Pairwise (fun a b => a.createdAt ≤ b.createdAt) ∧
    s.Pairwise (fun a b => a.id ≠ b.id) := by
  induction h with
  | init c => simp
  | create s c id lid d now₁ now₂ hr hfresh h1 h2 ih =>
    obtain ⟨ihs, ihsort, ihids⟩ := ih
    have hstate : (MemoryTaskRepository.create s id lid d now₁ now₂).2 =
        s ++ [(MemoryTaskRepository.create s id lid d now₁ now₂).1] := by
      show setBy Task.id s _ = _
      exact setBy_eq_append (by simpa using hfresh)
    rw [hstate]
    exact wf_append_step _ hfresh rfl rfl rfl h1 h2 ihs ihsort ihids
  | update s c id d now hr h10 ih =>
    obtain ⟨ihs, ihsort, ihids⟩ := ih
    cases hget : getBy Task.id s id with
    | none =>
      have hstate : (MemoryTaskRepository.update s id d now).2 = s := by
        simp [MemoryTaskRepository.update, hget]
      rw [hstate]
      refine ⟨?_, ihsort, ihids⟩
      intro t ht
      rcases ihs t ht with ⟨hcu, huc⟩
      exact ⟨hcu, by omega⟩
    | some t =>
      have hkt := getBy_key hget
      have hhas : hasBy Task.id s (Task.id (d.spread t now)) = true := by
        rw [show Task.id (d.spread t now) = id from hkt]
        exact hasBy_of_getBy_some hget
      have hstate : (MemoryTaskRepository.update s id d now).2 =
          patchBy Task.id s id (fun _ => d.spread t now) := by
        simp only [MemoryTaskRepository.update, hget]
        rw [setBy_eq_patchBy hhas, show Task.id (d.spread t now) = id from hkt]
      rw [hstate]
      exact wf_patch_step _ hget hkt rfl rfl (by omega) ihs ihsort ihids
  | toggle s c id now hr h10 ih =>
    obtain ⟨ihs, ihsort, ihids⟩ := ih
    cases hget : getBy Task.id s id with
    | none =>
      have hstate : (MemoryTaskRepository.toggleComplete s id now).2 = s := by
        simp [MemoryTaskRepository.toggleComplete, hget]
      rw [hstate]
      refine ⟨?_, ihsort, ihids⟩
      intro t ht
      rcases ihs t ht with ⟨hcu, huc⟩
      exact ⟨hcu, by omega⟩
    | some t =>
      have hkt := getBy_key hget
      rw [(memToggle_found now hget).2]
      exact wf_patch_step _ hget hkt rfl rfl (by omega) ihs ihsort ihids
  | delete s c id hr ih =>
    obtain ⟨ihs, ihsort, ihids⟩ := ih
    have hsub : (MemoryTaskRepository.delete s id).2.Sublist s := by
      show (removeBy Task.id s id).Sublist s
      exact List.filter_sublist s
    refine ⟨?_, ihsort.sublist hsub, ihids.sublist hsub⟩
    intro t ht
    exact ihs t (hsub.mem ht)

/-- Every reachable in-memory list store satisfies the same invariants on its
lists map. -/
theorem memListReach_wf {s : MemoryListRepository.State} {c : Nat}
    (h : MemListReach s c) :
    (∀ l ∈ s.lists, l.createdAt ≤ l.updatedAt ∧ l.updatedAt ≤ c) ∧
    s.lists.Pairwise (fun a b => a.createdAt ≤ b.createdAt) ∧
    s.lists.Pairwise (fun a b => a.id ≠ b.id) := by
  induction h with
  | init c => simp
  | create s c id d now₁ now₂ hr hfresh h1 h2 ih =>
    obtain ⟨ihs, ihsort, ihids⟩ := ih
    have hstate : (MemoryListRepository.create s id d now₁ now₂).2.lists =
        s.lists ++ [(MemoryListRepository.create s id d now₁ now₂).1] := by
      show setBy TodoList.id s.lists _ = _
      exact setBy_eq_append (by simpa using hfresh)
    rw [hstate]
    exact wf_append_step _ hfresh rfl rfl rfl h1 h2 ihs ihsort ihids
  | update s c id d now hr h10 ih =>
    obtain ⟨ihs, ihsort, ihids⟩ := ih
    cases hget : getBy TodoList.id s.lists id with
    | none =>
      have hstate : (MemoryListRepository.update s id d now).2 = s := by
        simp [MemoryListRepository.update, hget]
      rw [hstate]
      refine ⟨?_, ihsort, ihids⟩
      intro l hl
      rcases ihs l hl with ⟨hcu, huc⟩
      exact ⟨hcu, by omega⟩
    | some l =>
      have hkl := getBy_key hget
      have hhas : hasBy TodoList.id s.lists (TodoList.id (d.spread l now)) = true := by
        rw [show TodoList.id (d.spread l now) = id from hkl]
        exact hasBy_of_getBy_some hget
      have hstate : (MemoryListRepository.update s id d now).2.lists =
          patchBy TodoList.id s.lists id (fun _ => d.spread l now) := by
        simp only [MemoryListRepository.update, hget]
        rw [setBy_eq_patchBy hhas, show TodoList.id (d.spread l now) = id from hkl]
      rw [hstate]
      exact wf_patch_step _ hget hkl rfl rfl (by omega) ihs ihsort ihids
  | delete s c id hr ih =>
    obtain ⟨ihs, ihsort, ihids⟩ := ih
    have hsub : (MemoryListRepository.delete s id).2.lists.Sublist s.lists := by
      show (removeBy TodoList.id s.lists id).Sublist s.lists
      exact List.filter_sublist s.lists
    refine ⟨?_, ihsort.sublist hsub, ihids.sublist hsub⟩
    intro l hl
    exact ihs l (hsub.mem hl)

/-- Stamp preservation for an `UPDATE … WHERE id = ?` that rewrites each
matched row, keeping its creation stamp and setting its update stamp to
`now`. -/
theorem stamps_patchBy {α} {k : α → String} {mC mU : α → Nat} {s : List α}
    {c now : Nat} {id : String} {f : α → α}
    (hcr : ∀ y ∈ s, k y = id → mC (f y) = mC y)
    (hup : ∀ y ∈ s, k y = id → mU (f y) = now)
    (hc : c ≤ now)
    (ihs : ∀ x ∈ s, mC x ≤ mU x ∧ mU x ≤ c) :
    ∀ x ∈ patchBy k s id f, mC x ≤ mU x ∧ mU x ≤ now := by
  intro x hx
  rcases mem_patchBy hx with ⟨y, hy, hxy⟩
  by_cases hyid : k y = id
  · rw [if_pos hyid] at hxy
    rw [hxy, hcr y hy hyid, hup y hy hyid]
    rcases ihs y hy with ⟨hcu, huc⟩
    exact ⟨by omega, le_refl _⟩
  · rw [if_neg hyid] at hxy
    rw [hxy]
    rcases ihs y hy with ⟨hcu, huc⟩
    exact ⟨hcu, by omega⟩

/-- Relaxing the clock bound of the stamp invariant. -/
theorem stamps_relax {α} {mC mU : α → Nat} {s : List α} {c now : Nat}
    (hc : c ≤ now) (ihs : ∀ x ∈ s, mC x ≤ mU x ∧ mU x ≤ c) :
    ∀ x ∈ s, mC x ≤ mU x ∧ mU x ≤ now :=
  fun x hx => ⟨(ihs x hx).1, le_trans (ihs x hx).2 hc⟩

/-- Every reachable SQL database satisfies the stamp invariant on both
tables. -/
theorem sqlReach_wf {db : SQLDatabase} {c : Nat} (h : SQLReach db c) :
    (∀ t ∈ db.tasks, t.createdAt ≤ t.updatedAt ∧ t.updatedAt ≤ c) ∧
    (∀ l ∈ db.lists, l.createdAt ≤ l.updatedAt ∧ l.updatedAt ≤ c) := by
  induction h with
  | init c => simp
  | listCreate db c id d now hr hfresh hc ih =>
    obtain ⟨iht, ihl⟩ := ih
    refine ⟨stamps_relax hc iht, ?_⟩
    intro l hl
    rcases List.mem_append.mp hl with hl | hl
    · exact stamps_relax hc ihl l hl
    · rw [List.mem_singleton.mp hl]
      exact ⟨le_refl _, le_refl _⟩
  | taskCreate db c id lid d now hr hfresh hc ih =>
    obtain ⟨iht, ihl⟩ := ih
    refine ⟨?_, stamps_relax hc ihl⟩
    intro t ht
    rcases List.mem_append.mp ht with ht | ht
    · exact stamps_relax hc iht t ht
    · rw [List.mem_singleton.mp ht]
      exact ⟨le_refl _, le_refl _⟩
  | listUpdate db c id d now hr hc ih =>
    obtain ⟨iht, ihl⟩ := ih
    cases he : d.isEmpty with
    | true =>
      have hstate : (SQLListRepository.update db id d now).2 = db := by
        simp [SQLListRepository.update, he]
      rw [hstate]
      exact ⟨stamps_relax hc iht, stamps_relax hc ihl⟩
    | false =>
      cases hh : hasBy TodoList.id db.lists id with
      | false =>
        have hstate : (SQLListRepository.update db id d now).2 = db := by
          simp [SQLListRepository.update, he, hh]
        rw [hstate]
        exact ⟨stamps_relax hc iht, stamps_relax hc ihl⟩
      | true =>
        have hstate : (SQLListRepository.update db id d now).2 =
            { db with lists := patchBy TodoList.id db.lists id (fun r => applyListPatch d r now) } := by
          simp [SQLListRepository.update, he, hh]
        rw [hstate]
        refine ⟨stamps_relax hc iht, ?_⟩
        exact stamps_patchBy (fun y hy hyid => rfl) (fun y hy hyid => rfl) hc ihl
  | taskUpdate db c id d now hr hc ih =>
    obtain ⟨iht, ihl⟩ := ih
    cases he : d.isEmpty with
    | true =>
      have hstate : (SQLTaskRepository.update db id d now).2 = db := by
        simp [SQLTaskRepository.update, he]
      rw [hstate]
      exact ⟨stamps_relax hc iht, stamps_relax hc ihl⟩
    | false =>
      cases hh : hasBy Task.id db.tasks id with
      | false =>
        have hstate : (SQLTaskRepository.update db id d now).2 = db := by
          simp [SQLTaskRepository.update, he, hh]
        rw [hstate]
        exact ⟨stamps_relax hc iht, stamps_relax hc ihl⟩
      | true =>
        have hstate : (SQLTaskRepository.update db id d now).2 =
            { db with tasks := patchBy Task.id db.tasks id (fun r => applyTaskPatch d r now) } := by
          simp [SQLTaskRepository.update, he, hh]
        rw [hstate]
        refine ⟨?_, stamps_relax hc ihl⟩
        exact stamps_patchBy (fun y hy hyid => rfl) (fun y hy hyid => rfl) hc iht
  | taskToggle db c id now hr hc ih =>
    obtain ⟨iht, ihl⟩ := ih
    cases hh : hasBy Task.id db.tasks id with
    | false =>
      have hstate : (SQLTaskRepository.toggleComplete db id now).2 = db := by
        simp [SQLTaskRepository.toggleComplete, hh]
      rw [hstate]
      exact ⟨stamps_relax hc iht, stamps_relax hc ihl⟩
    | true =>
      have hstate : (SQLTaskRepository.toggleComplete db id now).2 =
          { db with tasks := patchBy Task.id db.tasks id (fun r => { r with completed := !r.completed, updatedAt := now }) } := by
        simp [SQLTaskRepository.toggleComplete, hh]
      rw [hstate]
      refine ⟨?_, stamps_relax hc ihl⟩
      exact stamps_patchBy (fun y hy hyid => rfl) (fun y hy hyid => rfl) hc iht
  | listDelete db c id hr ih =>
    obtain ⟨iht, ihl⟩ := ih
    refine ⟨iht, ?_⟩
    intro l hl
    exact ihl l ((List.filter_sublist db.lists).mem hl)
  | taskDelete db c id hr ih =>
    obtain ⟨iht, ihl⟩ := ih
    refine ⟨?_, ihl⟩
    intro t ht
    exact iht t ((List.filter_sublist db.tasks).mem ht)

/-- C9.  In every reachable state of every store — in-memory task store,
in-memory list store, and the shared SQL database — every stored entity
satisfies `createdAt ≤ updatedAt`: create assigns both stamps at creation,
and update and toggleComplete only move updatedAt later under the monotone
clock. -/
theorem c9_updatedAt_ge_createdAt :
    (∀ (s : MemoryTaskRepository.State) (c : Nat), MemTaskReach s c →
      ∀ t ∈ s, t.createdAt ≤ t.updatedAt) ∧
    (∀ (s : MemoryListRepository.State) (c : Nat), MemListReach s c →
      ∀ l ∈ s.lists, l.createdAt ≤ l.updatedAt) ∧
    (∀ (db : SQLDatabase) (c : Nat), SQLReach db c →
      (∀ t ∈ db.tasks, t.createdAt ≤ t.updatedAt) ∧
      (∀ l ∈ db.lists, l.createdAt ≤ l.updatedAt)) := by
  refine ⟨?_, ?_, ?_⟩
  · intro s c h t ht
    exact ((memTaskReach_wf h).1 t ht).1
  · intro s c h l hl
    exact ((memListReach_wf h).1 l hl).1
  · intro db c h
    obtain ⟨iht, ihl⟩ := sqlReach_wf h
    exact ⟨fun t ht => (iht t ht).1, fun l hl => (ihl l hl).1⟩

/-- Witness for C9 at singleton stores: memory task created at instants 5/6,
memory list at 7/8, SQL task at 5. -/
theorem c9_updatedAt_ge_createdAt_witness :
    c9Task.createdAt ≤ c9Task.updatedAt ∧
    c9ListEntity.createdAt ≤ c9ListEntity.updatedAt ∧
    c9SqlTask.createdAt ≤ c9SqlTask.updatedAt := by
  refine ⟨?_, ?_, ?_⟩
  · have hreach : MemTaskReach c9State 6 :=
      MemTaskReach.create [] 0 "T1" "L1" { title := "x" } 5 6 (MemTaskReach.init 0)
        rfl (by omega) (by omega)
    exact c9_updatedAt_ge_createdAt.1 c9State 6 hreach c9Task (by decide)
  · have hreach : MemListReach c9ListState 8 :=
      MemListReach.create ⟨[], []⟩ 0 "L1" { name := "n" } 7 8 (MemListReach.init 0)
        rfl (by omega) (by omega)
    exact c9_updatedAt_ge_createdAt.2.1 c9ListState 8 hreach c9ListEntity (by decide)
  · have hreach : SQLReach c9SqlDb 5 :=
      SQLReach.taskCreate ⟨[], []⟩ 0 "T1" "L1" { title := "x" } 5 (SQLReach.init 0)
        rfl (by omega)
    exact (c9_updatedAt_ge_createdAt.2.2 c9SqlDb 5 hreach).1 c9SqlTask (by decide)

/-- Two lists that are permutations of each other, both sorted for the same
relation, are equal provided the relation is antisymmetric on the members
involved. -/
theorem perm_pairwise_eq {α} {R : α → α → Prop} :
    ∀ {l₁ l₂ : List α}, l₁.Perm l₂ → l₁.Pairwise R → l₂.Pairwise R →
      (∀ a ∈ l₁, ∀ b ∈ l₁, R a b → R b a → a = b) → l₁ = l₂ := by
  intro l₁
  induction l₁ with
  | nil =>
    intro l₂ hp _ _ _
    exact (hp.symm.eq_nil).symm
  | cons a t₁ ih =>
    intro l₂ hp h1 h2 hanti
    cases l₂ with
    | nil => exact absurd hp.eq_nil (by simp)
    | cons b t₂ =>
      by_cases hab : a = b
      · subst hab
        have hp' := hp.cons_inv
        have heq := ih hp' h1.of_cons h2.of_cons
          (fun x hx y hy => hanti x (List.mem_cons_of_mem _ hx) y (List.mem_cons_of_mem _ hy))
        rw [heq]
      · have ha2 : a ∈ b :: t₂ := hp.subset (List.mem_cons_self a t₁)
        have hb1 : b ∈ a :: t₁ := hp.symm.subset (List.mem_cons_self b t₂)
        have hb1' : b ∈ t₁ := by
          rcases List.mem_cons.mp hb1 with h | h
          · exact absurd h.symm hab
          · exact h
        have ha2' : a ∈ t₂ := by
          rcases List.mem_cons.mp ha2 with h | h
          · exact absurd h hab
          · exact h
        have hRab : R a b := List.rel_of_pairwise_cons h1 hb1'
        have hRba : R b a := List.rel_of_pairwise_cons h2 ha2'
        exact absurd (hanti a (List.mem_cons_self a t₁) b hb1 hRab hRba) hab

/-- C3 counterexample.  The claim says List Store findAll returns ascending
creation order in both backends.  The SQL backend runs
`SELECT * FROM lists ORDER BY created_at DESC`: with two lists created at
instants 100 and 200, the descending output `[c3L2, c3L1]` is a permitted
(indeed the only) result of the query, and it is not in ascending creation
order. -/
theorem c3_sql_descending_counterexample :
    SQLListRepository.findAllSpec c3Db [c3L2, c3L1] ∧
    ¬ ([c3L2, c3L1].Pairwise (fun a b : TodoList => a.createdAt ≤ b.createdAt)) := by
  constructor
  · constructor
    · decide
    · decide
  · decide

/-- C3 as amended.  The in-memory backend returns ascending creation order
(the map's insertion order, which reachability shows is ascending in
creation stamps, ties resolved by insertion — that is, id-generation —
order).  The SQL backend returns descending created_at order: at the
two-list database with distinct creation instants, the only output the query
admits is the reverse of creation order. -/
theorem c3_find_all_order_amended :
    (∀ (s : MemoryListRepository.State) (c : Nat), MemListReach s c →
      (MemoryListRepository.findAll s).Pairwise
        (fun a b => a.createdAt ≤ b.createdAt)) ∧
    (∀ out, SQLListRepository.findAllSpec c3Db out → out = [c3L2, c3L1]) := by
  constructor
  · intro s c h
    exact (memListReach_wf h).2.1
  · intro out hspec
    have hperm : out.Perm [c3L2, c3L1] := by
      refine List.Perm.trans hspec.1.symm ?_
      decide
    refine perm_pairwise_eq hperm hspec.2 (by decide) ?_
    intro a ha b hb hab hba
    have ha' : a = c3L2 ∨ a = c3L1 := by simpa using hperm.subset ha
    have hb' : b = c3L2 ∨ b = c3L1 := by simpa using hperm.subset hb
    rcases ha' with rfl | rfl <;> rcases hb' with rfl | rfl
    · rfl
    · exact absurd hba (by decide)
    · exact absurd hab (by decide)
    · rfl

/-- Witness for C3 as amended: the two-list in-memory store built by two
creates is in ascending creation order, and the SQL specification applied to
the descending output confirms it. -/
theorem c3_find_all_order_amended_witness :
    (MemoryListRepository.findAll c3MemState).Pairwise
      (fun a b => a.createdAt ≤ b.createdAt) ∧
    ([c3L2, c3L1] : List TodoList) = [c3L2, c3L1] := by
  constructor
  · have h1 : MemListReach (MemoryListRepository.create ⟨[], []⟩ "L1" { name := "A" } 100 100).2 100 :=
      MemListReach.create ⟨[], []⟩ 0 "L1" { name := "A" } 100 100 (MemListReach.init 0)
        rfl (by omega) (by omega)
    have h2 : MemListReach c3MemState 200 :=
      MemListReach.create _ 100 "L2" { name := "B" } 200 200 h1 (by decide)
        (by omega) (by omega)
    exact c3_find_all_order_amended.1 c3MemState 200 h2
  · exact c3_find_all_order_amended.2 [c3L2, c3L1] ⟨by decide, by decide⟩

/-- C5 counterexample.  The claim says both backends break sort ties by
creation order.  In the SQL backend buildQuery emits only
`ORDER BY priority ASC` for a priority sort — no secondary key — so with two
equal-priority tasks created at instants 100 and 200 the output
`[c5T2, c5T1]` (the later-created first) satisfies everything the query
requires of the database, i.e. tie order is unspecified rather than creation
order. -/
theorem c5_sql_tiebreak_counterexample :
    SQLTaskRepository.findAllSpec c5Db (some c5Params) [c5T2, c5T1] ∧
    c5T1.priority = c5T2.priority ∧ c5T1.createdAt < c5T2.createdAt ∧
    ¬ ([c5T2, c5T1].Pairwise
        (fun a b => a.priority = b.priority → a.createdAt ≤ b.createdAt)) := by
  refine ⟨⟨by decide, by decide⟩, by decide, by decide, by decide⟩

/-- C5 as amended.  In the in-memory backend the claim holds: the stable JS
sort keeps tasks that compare equal under the selected comparator in the
stored (insertion = creation) order, so in any reachable store two tying
tasks appear in creation order in the query result.  In the SQL backend the
generated query constrains tie order not at all: at the concrete database
both tie orders satisfy the query specification. -/
theorem c5_sort_tiebreak_amended :
    (∀ (s : MemoryTaskRepository.State) (c : Nat) (p : TaskQueryParams) (f : SortField)
        (a b : Task), MemTaskReach s c → p.sortBy = some f → [a, b].Sublist s →
      fieldCompare f p.sortOrder a b = 0 →
      matchesFilters p a = true → matchesFilters p b = true →
      a.createdAt ≤ b.createdAt ∧
        [a, b].Sublist (MemoryTaskRepository.applyFiltersAndSorting s (some p))) ∧
    (SQLTaskRepository.findAllSpec c5Db (some c5Params) [c5T1, c5T2] ∧
      SQLTaskRepository.findAllSpec c5Db (some c5Params) [c5T2, c5T1]) := by
  constructor
  · intro s c p f a b hreach hsort hsub hcmp ha hb
    obtain ⟨_, hsorted, _⟩ := memTaskReach_wf hreach
    constructor
    · exact List.pairwise_iff_forall_sublist.mp hsorted hsub
    · have hfilter : [a, b].Sublist (s.filter (matchesFilters p)) := by
        have heq : [a, b].filter (matchesFilters p) = [a, b] := by
          simp [List.filter, ha, hb]
        rw [← heq]
        exact List.Sublist.filter _ hsub
      have hle : fieldBefore f p.sortOrder a b := by
        rw [fieldBefore]
        exact le_of_eq hcmp
      simp only [MemoryTaskRepository.applyFiltersAndSorting, hsort]
      exact List.pair_sublist_insertionSort hle hfilter
  · exact ⟨⟨by decide, by decide⟩, ⟨by decide, by decide⟩⟩

/-- Witness for C5 as amended: two default-priority tasks created in order
tie under a priority sort and come out in creation order from the in-memory
query; the SQL conjunct is closed. -/
theorem c5_sort_tiebreak_amended_witness :
    (c5MemA.createdAt ≤ c5MemB.createdAt ∧
      [c5MemA, c5MemB].Sublist
        (MemoryTaskRepository.applyFiltersAndSorting c5MemState (some c5Params))) ∧
    (SQLTaskRepository.findAllSpec c5Db (some c5Params) [c5T1, c5T2] ∧
      SQLTaskRepository.findAllSpec c5Db (some c5Params) [c5T2, c5T1]) := by
  constructor
  · have h1 : MemTaskReach (MemoryTaskRepository.create [] "T1" "L1" { title := "a" } 100 100).2 100 :=
      MemTaskReach.create [] 0 "T1" "L1" { title := "a" } 100 100 (MemTaskReach.init 0)
        rfl (by omega) (by omega)
    have h2 : MemTaskReach c5MemState 200 :=
      MemTaskReach.create _ 100 "T2" "L1" { title := "b" } 200 200 h1 (by decide)
        (by omega) (by omega)
    refine c5_sort_tiebreak_amended.1 c5MemState 200 c5Params SortField.priority
      c5MemA c5MemB h2 rfl ?_ (by decide) rfl rfl
    show [c5MemA, c5MemB].Sublist [c5MemA, c5MemB]
    exact List.Sublist.refl _
  · exact c5_sort_tiebreak_amended.2

end Todo
